import Mathlib

/-!
Shallow embedding of the pbparser repository (a recursive-descent parser and
semantic verifier for Protocol-Buffer ".proto" files) together with proofs
about the claims of its specification.

The embedding follows the final versions of the Go sources:
  * `datatype.go`   - the scalar / map / named field data-type model,
  * `elements.go`   - the schema-document element records,
  * the final `parseCtx` (context-permission predicates),
  * `parser.go`     - the character scanner and the recursive-descent parser,
  * `verifier.go`   - the post-parse semantic verifier.

Modelling conventions:
  * Go's `bufio.Reader` with a one-rune pushback becomes a `PState` carrying
    the remaining characters; `unread c` re-prepends the last successfully
    read rune, and is a no-op after a failed read, exactly like
    `bufio.UnreadRune`.
  * The parser's current qualified-name prefix (`parser.prefix` in Go) is
    threaded explicitly as a `pfx : String` argument and result; scanner
    functions cannot touch it, mirroring that no scanner primitive mutates it.
  * Line/column bookkeeping (`location`, `lastColumnRead`) is omitted: no
    control-flow decision of the source depends on it, it only decorates
    error strings, and no claim concerns the locations.  Error strings are
    therefore embedded without the " on line: N" suffix that `errline` /
    `errcol` append.
  * Go functions that loop on input that can fail to shrink take a `fuel`
    argument; `PResult.diverge` reports fuel exhaustion and so models
    nontermination: a run that diverges for every fuel is a run that loops
    forever in Go.
  * Go maps (`map[string]bool`, `map[int]bool`, `map[string]protoFileOracle`)
    become lists used as sets / association lists, with lookups defaulting
    exactly as Go's zero values do.
-/

set_option maxRecDepth 8192

namespace Pbparser

/-- Result of an embedded Go computation: a value, a Go `error` string, or
fuel exhaustion (modelling nontermination of the original loop). -/
inductive PResult (α : Type) where
  | ok (a : α)
  | err (e : String)
  | diverge
deriving DecidableEq

/-! ## Data-type model (`datatype.go`) -/

/-- `DataTypeCategory` from `datatype.go`. -/
inductive DataTypeCategory where
  | ScalarDataTypeCategory
  | MapDataTypeCategory
  | NamedDataTypeCategory
deriving DecidableEq

/-- `ScalarType` from `datatype.go`: the 16 supported scalar types. -/
inductive ScalarType where
  | AnyScalar | BoolScalar | BytesScalar | DoubleScalar | FloatScalar
  | Fixed32Scalar | Fixed64Scalar | Int32Scalar | Int64Scalar
  | Sfixed32Scalar | Sfixed64Scalar | Sint32Scalar | Sint64Scalar
  | StringScalar | Uint32Scalar | Uint64Scalar
deriving DecidableEq

/-- `NamedDataType` from `datatype.go`. -/
structure NamedDataType where
  supportsStreaming : Bool
  name : String
deriving DecidableEq

/-- `DataType`: the interface with implementations `ScalarDataType`,
`MapDataType` and `NamedDataType`, embedded as one inductive.  The
`ScalarDataType` constructor keeps both fields (`scalarType`, `name`);
`MapDataType`'s two `DataType` fields are inlined. -/
inductive DataType where
  | scalar (scalarType : ScalarType) (name : String)
  | mapDT (keyType : DataType) (valueType : DataType)
  | named (ndt : NamedDataType)
deriving DecidableEq

/-- The `Name()` method of the three `DataType` implementations. -/
def DataType.Name : DataType → String
  | .scalar _ n => n
  | .mapDT k v => "map<" ++ k.Name ++ ", " ++ v.Name ++ ">"
  | .named ndt => ndt.name

/-- The `Category()` method of the three `DataType` implementations. -/
def DataType.Category : DataType → DataTypeCategory
  | .scalar _ _ => .ScalarDataTypeCategory
  | .mapDT _ _ => .MapDataTypeCategory
  | .named _ => .NamedDataTypeCategory

/-- `scalarLookupMap` from `datatype.go`, as a lookup function. -/
def scalarLookupMap : String → Option ScalarType
  | "any" => some .AnyScalar
  | "bool" => some .BoolScalar
  | "bytes" => some .BytesScalar
  | "double" => some .DoubleScalar
  | "float" => some .FloatScalar
  | "fixed32" => some .Fixed32Scalar
  | "fixed64" => some .Fixed64Scalar
  | "int32" => some .Int32Scalar
  | "int64" => some .Int64Scalar
  | "sfixed32" => some .Sfixed32Scalar
  | "sfixed64" => some .Sfixed64Scalar
  | "sint32" => some .Sint32Scalar
  | "sint64" => some .Sint64Scalar
  | "string" => some .StringScalar
  | "uint32" => some .Uint32Scalar
  | "uint64" => some .Uint64Scalar
  | _ => none

/-- `strings.ToLower` (ASCII-relevant part), on the string's character list
so that concrete instances evaluate. -/
def strToLower (s : String) : String :=
  ⟨s.data.map Char.toLower⟩

/-- `NewScalarDataType` from `datatype.go`: case-insensitive lookup in the
scalar table; unknown names are an error (`st == 0` in Go). -/
def NewScalarDataType (s : String) : PResult DataType :=
  let key := strToLower s
  match scalarLookupMap key with
  | some st => .ok (.scalar st key)
  | none => .err ("'" ++ s ++ "' is not a valid ScalarDataType")

/-! ## Schema-document elements (`elements.go`, final variant)

The final `MessageElement` in the repository also carries the nested
`Messages` and `ExtendDeclarations` lists: the final `parser.go`
(`readMessage`, `readExtend`) and `verifier.go` (`checkMsgName`,
`findFieldsToValidate`, ...) read and write them, and `parser_test.go`
prints them, although the `elements.go` snapshots in the repository predate
those two fields.  They are included here as those users require. -/

/-- `OptionElement`. -/
structure OptionElement where
  Name : String
  Value : String
  IsParenthesized : Bool
deriving DecidableEq

/-- `EnumConstantElement`. -/
structure EnumConstantElement where
  Name : String
  Tag : Int
  Documentation : String
  Options : List OptionElement
deriving DecidableEq

/-- `EnumElement`. -/
structure EnumElement where
  Name : String
  QualifiedName : String
  Documentation : String
  Options : List OptionElement
  EnumConstants : List EnumConstantElement
deriving DecidableEq

/-- `RPCElement`. -/
structure RPCElement where
  Name : String
  Documentation : String
  Options : List OptionElement
  RequestType : NamedDataType
  ResponseType : NamedDataType
deriving DecidableEq

/-- `ServiceElement`. -/
structure ServiceElement where
  Name : String
  QualifiedName : String
  Documentation : String
  Options : List OptionElement
  RPCs : List RPCElement
deriving DecidableEq

/-- `FieldElement` (its Go field `Type` is written `Type'`, since `Type`
is a Lean keyword). -/
structure FieldElement where
  Name : String
  Documentation : String
  Label : String
  Type' : DataType
  Tag : Int
  Options : List OptionElement
deriving DecidableEq

/-- `OneOfElement`. -/
structure OneOfElement where
  Name : String
  Documentation : String
  Fields : List FieldElement
  Options : List OptionElement
deriving DecidableEq

/-- `ExtensionsElement`. -/
structure ExtensionsElement where
  Documentation : String
  Start : Int
  End : Int
deriving DecidableEq

/-- `ReservedRangeElement`. -/
structure ReservedRangeElement where
  Documentation : String
  Start : Int
  End : Int
deriving DecidableEq

/-- `ExtendElement`. -/
structure ExtendElement where
  Name : String
  QualifiedName : String
  Documentation : String
  Fields : List FieldElement
deriving DecidableEq

/-- `MessageElement` (with the nested `Messages` and `ExtendDeclarations`
fields its users in `parser.go` / `verifier.go` require, see above). -/
structure MessageElement where
  Name : String
  QualifiedName : String
  Documentation : String
  Options : List OptionElement
  Fields : List FieldElement
  Enums : List EnumElement
  OneOfs : List OneOfElement
  Extensions : List ExtensionsElement
  ReservedRanges : List ReservedRangeElement
  ReservedNames : List String
  Messages : List MessageElement
  ExtendDeclarations : List ExtendElement

/-- `ProtoFile` from `elements.go`. -/
structure ProtoFile where
  FilePath : String
  PackageName : String
  Syntax : String
  Dependencies : List String
  PublicDependencies : List String
  Enums : List EnumElement
  Messages : List MessageElement
  Services : List ServiceElement
  ExtendDeclarations : List ExtendElement
  Options : List OptionElement

/-- The zero `ProtoFile` (`ProtoFile{}` in Go). -/
def emptyProtoFile : ProtoFile :=
  { FilePath := "", PackageName := "", Syntax := "", Dependencies := [],
    PublicDependencies := [], Enums := [], Messages := [], Services := [],
    ExtendDeclarations := [], Options := [] }

/-! ## Scanner primitives (`parser.go`) -/

/-- `eof`: the rune 0 the Go scanner returns at end of input. -/
def eofChar : Char := Char.ofNat 0

/-- The scanner state: the characters not yet consumed, whether the most
recent reader operation was a successful `ReadRune` (so that `UnreadRune`
succeeds), and the parser's sticky `eofReached` flag. -/
structure PState where
  remaining : List Char
  lastReadOk : Bool
  eofReached : Bool
deriving DecidableEq

/-- `parser.read`: next rune, or `eofChar` (without consuming) at the end. -/
def read (s : PState) : Char × PState :=
  match s.remaining with
  | c :: rest => (c, { s with remaining := rest, lastReadOk := true })
  | [] => (eofChar, { s with lastReadOk := false })

/-- `parser.unread`, called (as everywhere in the source) directly after a
`read` that returned `c`: pushes `c` back when that read succeeded, and is
a no-op (like a failing `bufio.UnreadRune`) when it did not. -/
def unread (c : Char) (s : PState) : PState :=
  if s.lastReadOk then { s with remaining := c :: s.remaining, lastReadOk := false }
  else { s with lastReadOk := false }

/-- `isWhitespace` from `parser.go`. -/
def isWhitespace (c : Char) : Bool :=
  c = ' ' || c = '\t' || c = '\r' || c = '\n'

/-- `isLetter` from `parser.go`. -/
def isLetter (c : Char) : Bool :=
  ('a' ≤ c && c ≤ 'z') || ('A' ≤ c && c ≤ 'Z')

/-- `isDigit` from `parser.go` (`'0' <= c && c <= '9'`, stated on code
points). -/
def isDigit (c : Char) : Bool :=
  48 ≤ c.toNat && c.toNat ≤ 57

/-- `isStartOfComment` from `parser.go`. -/
def isStartOfComment (c : Char) : Bool :=
  c = '/'

/-- `isValidCharInWord` from `parser.go`.  The `f` matcher argument is only
ever `nil` or the import-path matcher for `'/'`; it is embedded as the
Boolean `slashOk`. -/
def isValidCharInWord (c : Char) (slashOk : Bool) : Bool :=
  isLetter c || isDigit c || c = '_' || c = '-' || c = '.' || (slashOk && c = '/')

/-- Loop of `parser.skipWhitespace` on the remaining characters.  Returns
the new remaining characters, the final `lastReadOk`, and whether
`eofReached` was set.  A NUL character in the input compares equal to the
`eof` rune and is treated as end of input, exactly as in Go. -/
def skipWsGo : List Char → List Char × Bool × Bool
  | [] => ([], false, true)
  | c :: rest =>
    if c = eofChar then (rest, true, true)
    else if isWhitespace c then skipWsGo rest
    else (c :: rest, false, false)

/-- `parser.skipWhitespace`. -/
def skipWhitespace (s : PState) : PState :=
  match skipWsGo s.remaining with
  | (rest, lro, eo) =>
    { remaining := rest, lastReadOk := lro, eofReached := s.eofReached || eo }

/-- Loop of `parser.readWordAdvanced`: collects valid word characters;
stops (unreading the offending character) at the first invalid one. -/
def readWordGo (slashOk : Bool) : List Char → List Char × List Char
  | [] => ([], [])
  | c :: rest =>
    if isValidCharInWord c slashOk then
      match readWordGo slashOk rest with
      | (w, r) => (c :: w, r)
    else ([], c :: rest)

/-- `parser.readWordAdvanced` (the matcher embedded as `slashOk`). -/
def readWordAdvanced (slashOk : Bool) (s : PState) : String × PState :=
  match readWordGo slashOk s.remaining with
  | (w, r) => (String.mk w, { s with remaining := r, lastReadOk := false })

/-- `parser.readWord`. -/
def readWord (s : PState) : String × PState :=
  readWordAdvanced false s

/-- The digit value of an ASCII digit. -/
def digitVal (c : Char) : Nat := c.toNat - '0'.toNat

/-- Decimal value of a digit list (most significant first). -/
def digitsVal (l : List Char) : Nat :=
  l.foldl (fun acc c => acc * 10 + digitVal c) 0

/-- `strconv.Atoi` as the source uses it: an optional sign, then at least
one digit, nothing else; values outside the 64-bit int range are an error
(`ErrRange`).  The exact Go error strings are abbreviated. -/
def goAtoi (str : String) : PResult Int :=
  let core : List Char → Bool → PResult Int := fun ds neg =>
    if ds = [] then .err ("strconv.Atoi: parsing " ++ str ++ ": invalid syntax")
    else if ds.all (fun c => isDigit c) then
      let v : Nat := digitsVal ds
      if neg then
        if v ≤ 9223372036854775808 then .ok (-(v : Int))
        else .err ("strconv.Atoi: parsing " ++ str ++ ": value out of range")
      else
        if v ≤ 9223372036854775807 then .ok (v : Int)
        else .err ("strconv.Atoi: parsing " ++ str ++ ": value out of range")
    else .err ("strconv.Atoi: parsing " ++ str ++ ": invalid syntax")
  match str.data with
  | '-' :: rest => core rest true
  | '+' :: rest => core rest false
  | ds => core ds false

/-- Digit-collection loop of `parser.readInt`. -/
def readIntGo : List Char → List Char × List Char
  | [] => ([], [])
  | c :: rest =>
    if isDigit c then
      match readIntGo rest with
      | (w, r) => (c :: w, r)
    else ([], c :: rest)

/-- `parser.readInt`: collect digits, then `strconv.Atoi` them. -/
def readInt (s : PState) : PResult (Int × PState) :=
  match readIntGo s.remaining with
  | (ds, r) =>
    let s1 : PState := { s with remaining := r, lastReadOk := false }
    match goAtoi (String.mk ds) with
    | .ok v => .ok (v, s1)
    | .err e => .err e
    | .diverge => .diverge

/-- Loop of `parser.readUntil` (`bufio.ReadString`): collect up to and
including the delimiter; at end of input without the delimiter, consume
everything and report eof. -/
def readUntilGo (delim : Char) : List Char → List Char × List Char × Bool
  | [] => ([], [], true)
  | c :: rest =>
    if c = delim then ([], rest, false)
    else
      match readUntilGo delim rest with
      | (w, r, eo) => (c :: w, r, eo)

/-- `parser.readUntil`: the delimiter is stripped (`strings.TrimSuffix`). -/
def readUntil (delim : Char) (s : PState) : String × PState :=
  match readUntilGo delim s.remaining with
  | (w, r, eo) =>
    (String.mk w,
     { remaining := r, lastReadOk := false, eofReached := s.eofReached || eo })

/-- `parser.readUntilNewline`. -/
def readUntilNewline (s : PState) : String × PState :=
  readUntil '\n' s

/-- Loop of `parser.skipUntilNewline`. -/
def skipUntilNewlineGo : List Char → List Char × Bool
  | [] => ([], true)
  | c :: rest =>
    if c = '\n' then (rest, false)
    else if c = eofChar then (rest, true)
    else skipUntilNewlineGo rest

/-- `parser.skipUntilNewline`. -/
def skipUntilNewline (s : PState) : PState :=
  match skipUntilNewlineGo s.remaining with
  | (r, eo) =>
    { remaining := r, lastReadOk := false, eofReached := s.eofReached || eo }

/-- `strconv.QuoteRune`, restricted to what the proto error messages can
meet: common escapes are named, other non-printable runes are shown as a
hex escape of their code point. -/
def quoteRune (c : Char) : String :=
  if c = '\n' then "'\\n'"
  else if c = '\t' then "'\\t'"
  else if c = '\r' then "'\\r'"
  else if c = '\\' then "'\\\\'"
  else if c = '\'' then "'\\''"
  else if 32 ≤ c.toNat && c.toNat ≤ 126 then String.mk ['\'', c, '\'']
  else "'\\x" ++ toString c.toNat ++ "'"

/-- `parser.throw` (the line/column suffix of `errcol` omitted). -/
def throwErr (expected actual : Char) : String :=
  "Expected " ++ quoteRune expected ++ ", but found: " ++ quoteRune actual

/-- `parser.readQuotedString` (matcher embedded as `slashOk`). -/
def readQuotedString (slashOk : Bool) (s : PState) : PResult (String × PState) :=
  match read s with
  | (c, s1) =>
    if c = '"' then
      match readWordAdvanced slashOk s1 with
      | (str, s2) =>
        match read s2 with
        | (c2, s3) =>
          if c2 = '"' then .ok (str, s3)
          else .err (throwErr '"' c2)
    else .err (throwErr '"' c)

/-- `enclosure` from `parser.go`. -/
inductive Enclosure where
  | parenthesis
  | bracket
  | unenclosed
deriving DecidableEq

/-- `parser.readName`.  Note that in the parenthesised and bracketed cases
the source reads the closing delimiter and then unreads it, leaving it in
the stream. -/
def readName (s : PState) : PResult (String × Enclosure × PState) :=
  match read s with
  | (c, s1) =>
    if c = '(' then
      match readWord s1 with
      | (name, s2) =>
        match read s2 with
        | (c2, s3) =>
          if c2 = ')' then .ok (name, .parenthesis, unread c2 s3)
          else .err "Expected ')'"
    else if c = '[' then
      match readWord s1 with
      | (name, s2) =>
        match read s2 with
        | (c2, s3) =>
          if c2 = ']' then .ok (name, .bracket, unread c2 s3)
          else .err "Expected ']'"
    else
      match readWord (unread c s1) with
      | (name, s2) => .ok (name, .unenclosed, s2)

/-- `parser.readMultiLineComment`.  At end of input the Go loop never
stops (`read` keeps returning the eof rune, which is appended); the fuel
models that divergence. -/
def readMultiLineComment : Nat → PState → List Char → PResult (String × PState)
  | 0, _, _ => .diverge
  | fuel + 1, s, acc =>
    match read s with
    | (c, s1) =>
      if c ≠ '*' then readMultiLineComment fuel s1 (acc ++ [c])
      else
        match read s1 with
        | (c2, s2) =>
          if c2 = '/' then .ok ((String.mk acc).trim, s2)
          else readMultiLineComment fuel s2 (acc ++ [c2])

/-- One-or-more-single-line-comments loop of `parser.readSingleLineComment`. -/
def readSingleLineCommentLoop : Nat → PState → String → PResult (String × PState)
  | 0, _, _ => .diverge
  | fuel + 1, s, str =>
    let s1 := skipWhitespace s
    match read s1 with
    | (c, s2) =>
      if c ≠ '/' then .ok (str, unread c s2)
      else
        match read s2 with
        | (c2, s3) =>
          if c2 ≠ '/' then .ok (str, unread c2 s3)
          else
            match readUntilNewline s3 with
            | (line, s4) => readSingleLineCommentLoop fuel s4 (str ++ " " ++ line.trim)

/-- `parser.readSingleLineComment`. -/
def readSingleLineComment (fuel : Nat) (s : PState) : PResult (String × PState) :=
  match readUntilNewline s with
  | (line, s1) => readSingleLineCommentLoop fuel s1 line.trim

/-- `parser.readDocumentation`. -/
def readDocumentation (fuel : Nat) (s : PState) : PResult (String × PState) :=
  match read s with
  | (c, s1) =>
    if c = '/' then readSingleLineComment fuel s1
    else if c = '*' then readMultiLineComment fuel s1 []
    else .err ("Expected '/' or '*', but found: " ++ quoteRune c)

/-- `parser.readDocumentationIfFound`. -/
def readDocumentationIfFound : Nat → PState → PResult (String × PState)
  | 0, _ => .diverge
  | fuel + 1, s =>
    match read s with
    | (c, s1) =>
      if c = eofChar then .ok ("", { s1 with eofReached := true })
      else if isWhitespace c then readDocumentationIfFound fuel (skipWhitespace s1)
      else if isStartOfComment c then readDocumentation fuel s1
      else .ok ("", unread c s1)

/-! ## Parse context (final `parseCtx`) -/

/-- `ctxType` from the final parse-context source. -/
inductive CtxType where
  | fileCtx | msgCtx | oneOfCtx | enumCtx | rpcCtx | extendCtx | serviceCtx
deriving DecidableEq

/-- `ctxTypeToStringMap` / `parseCtx.String`. -/
def CtxType.str : CtxType → String
  | .fileCtx => "file"
  | .msgCtx => "message"
  | .oneOfCtx => "oneof"
  | .enumCtx => "enum"
  | .rpcCtx => "rpc"
  | .extendCtx => "extend"
  | .serviceCtx => "service"

/-- `parseCtx.permitsPackage`. -/
def CtxType.permitsPackage (t : CtxType) : Bool := t = .fileCtx

/-- `parseCtx.permitsSyntax`. -/
def CtxType.permitsSyntax (t : CtxType) : Bool := t = .fileCtx

/-- `parseCtx.permitsImport`. -/
def CtxType.permitsImport (t : CtxType) : Bool := t = .fileCtx

/-- `parseCtx.permitsField`. -/
def CtxType.permitsField (t : CtxType) : Bool :=
  t = .msgCtx || t = .oneOfCtx || t = .extendCtx

/-- `parseCtx.permitsOption`. -/
def CtxType.permitsOption (t : CtxType) : Bool :=
  t = .fileCtx || t = .msgCtx || t = .oneOfCtx || t = .enumCtx ||
    t = .serviceCtx || t = .rpcCtx

/-- `parseCtx.permitsExtensions`. -/
def CtxType.permitsExtensions (t : CtxType) : Bool := t = .msgCtx

/-- `parseCtx.permitsExtend`. -/
def CtxType.permitsExtend (t : CtxType) : Bool := t = .fileCtx || t = .msgCtx

/-- `parseCtx.permitsReserved`. -/
def CtxType.permitsReserved (t : CtxType) : Bool := t = .msgCtx

/-- `parseCtx.permitsRPC`. -/
def CtxType.permitsRPC (t : CtxType) : Bool := t = .serviceCtx

/-- `parseCtx.permitsOneOf`. -/
def CtxType.permitsOneOf (t : CtxType) : Bool := t = .msgCtx

/-- `parseCtx.permitsEnum`. -/
def CtxType.permitsEnum (t : CtxType) : Bool := t = .fileCtx || t = .msgCtx

/-- `parseCtx.permitsMsg`. -/
def CtxType.permitsMsg (t : CtxType) : Bool := t = .fileCtx || t = .msgCtx

/-- `parseCtx`: the context type together with the in-progress record the
Go code reaches through the untyped `obj` pointer.  A sum type replaces
the `interface{}` + type-assertion pattern; an assertion that would panic
in Go is an explicit error branch (never reached, as the permission gates
ensure the payload matches). -/
inductive CtxObj where
  | fileObj
  | msgObj (me : MessageElement)
  | oneOfObj (oe : OneOfElement)
  | enumObj (ee : EnumElement)
  | rpcObj (re : RPCElement)
  | extendObj (xe : ExtendElement)
  | serviceObj (se : ServiceElement)

/-- The `ctxType` of a context with its payload. -/
def CtxObj.ctxType : CtxObj → CtxType
  | .fileObj => .fileCtx
  | .msgObj _ => .msgCtx
  | .oneOfObj _ => .oneOfCtx
  | .enumObj _ => .enumCtx
  | .rpcObj _ => .rpcCtx
  | .extendObj _ => .extendCtx
  | .serviceObj _ => .serviceCtx

/-- The string constants of `parser.go`. -/
def proto3 : String := "proto3"

/-- The `optional` label constant. -/
def optionalLbl : String := "optional"

/-- The `required` label constant. -/
def requiredLbl : String := "required"

/-- The `repeated` label constant. -/
def repeatedLbl : String := "repeated"

/-! ## Data-type parsing (`readDataType` / `readDataTypeInternal`) -/

mutual

/-- `parser.readDataType`. -/
def readDataType (fuel : Nat) (s : PState) : PResult (DataType × PState) :=
  match fuel with
  | 0 => .diverge
  | n + 1 =>
    match readWord s with
    | (name, s1) => readDataTypeInternal n (skipWhitespace s1) name
termination_by (fuel, 0)

/-- `parser.readDataTypeInternal`. -/
def readDataTypeInternal (fuel : Nat) (s : PState) (name : String) :
    PResult (DataType × PState) :=
  match fuel with
  | 0 => .diverge
  | n + 1 =>
    if name = "map" then
      match read s with
      | (c, s1) =>
        if c ≠ '<' then .err (throwErr '<' c)
        else
          match readDataType n s1 with
          | .ok (keyType, s2) =>
            (match read s2 with
             | (c2, s3) =>
               if c2 ≠ ',' then .err (throwErr ',' c2)
               else
                 match readDataType n (skipWhitespace s3) with
                 | .ok (valueType, s4) =>
                   (match read s4 with
                    | (c3, s5) =>
                      if c3 ≠ '>' then .err (throwErr '>' c3)
                      else .ok (.mapDT keyType valueType, s5))
                 | .err e => .err e
                 | .diverge => .diverge)
          | .err e => .err e
          | .diverge => .diverge
    else
      match NewScalarDataType name with
      | .ok sdt => .ok (sdt, s)
      | _ => .ok (.named { supportsStreaming := false, name := name }, s)
termination_by (fuel, 1)

end

/-! ## List options (`readListOptions`, `readListOptionsOnALine`) -/

/-- Go `fmt`'s `%v` rendering of a string slice, used in the malformed
inline-option error message. -/
def fmtStrSlice (l : List String) : String :=
  "[" ++ String.intercalate " " l ++ "]"

/-- `stripParenthesis`.  On the empty string the Go code panics with an
index-out-of-range runtime error, embedded as an error result; the
bounding parentheses are removed (the regex rewrite restricted to its
intended one-match shape). -/
def stripParenthesis (s : String) : PResult (String × Bool) :=
  match s.data with
  | [] => .err "panic: runtime error: index out of range"
  | l =>
    if l.head? = some '(' && l.getLast? = some ')' then
      .ok (String.mk (l.drop 1 |>.dropLast), true)
    else .ok (s, false)

/-- `stripQuotes` (same conventions as `stripParenthesis`). -/
def stripQuotes (s : String) : PResult String :=
  match s.data with
  | [] => .err "panic: runtime error: index out of range"
  | l =>
    if l.head? = some '"' && l.getLast? = some '"' then
      .ok (String.mk (l.drop 1 |>.dropLast))
    else .ok s

/-- Per-pair body of the `readListOptions` loop. -/
def listOptionOfPair (pair : String) : PResult OptionElement :=
  let arr := pair.splitOn "="
  if arr.length ≠ 2 then
    .err ("Option '" ++ fmtStrSlice arr ++ "' is not specified as expected")
  else
    match stripParenthesis (arr.getD 0 "").trim with
    | .ok (oname, hasParenthesis) =>
      (match stripQuotes (arr.getD 1 "").trim with
       | .ok oval =>
         .ok { Name := oname, Value := oval, IsParenthesized := hasParenthesis }
       | .err e => .err e
       | .diverge => .diverge)
    | .err e => .err e
    | .diverge => .diverge

/-- The pair loop of `readListOptions`. -/
def listOptionsOfPairs : List String → PResult (List OptionElement)
  | [] => .ok []
  | pair :: rest =>
    match listOptionOfPair pair with
    | .ok oe =>
      (match listOptionsOfPairs rest with
       | .ok oes => .ok (oe :: oes)
       | .err e => .err e
       | .diverge => .diverge)
    | .err e => .err e
    | .diverge => .diverge

/-- `parser.readListOptions`. -/
def readListOptions (s : PState) : PResult (List OptionElement × PState) :=
  match readUntil ']' s with
  | (optionsStr, s1) =>
    match listOptionsOfPairs (optionsStr.splitOn ",") with
    | .ok options => .ok (options, s1)
    | .err e => .err e
    | .diverge => .diverge

/-- `parser.readListOptionsOnALine`. -/
def readListOptionsOnALine (s : PState) : PResult (List OptionElement × PState) :=
  match read (skipWhitespace s) with
  | (c, s1) =>
    if c = '[' then
      match readListOptions s1 with
      | .ok (options, s2) =>
        (match read s2 with
         | (c2, s3) =>
           if c2 ≠ ';' then .err (throwErr ';' c2)
           else .ok (options, skipUntilNewline s3))
      | .err e => .err e
      | .diverge => .diverge
    else if c ≠ ';' then .err (throwErr ';' c)
    else .ok ([], skipUntilNewline s1)

/-! ## Leaf declaration readers -/

/-- `parser.readOption`. -/
def readOption (s : PState) (pf : ProtoFile) (_documentation : String)
    (ctx : CtxObj) : PResult (PState × ProtoFile × CtxObj) :=
  match readName (skipWhitespace s) with
  | .ok (name, enc, s1) =>
    let isParen := enc = Enclosure.parenthesis
    (match read (skipWhitespace s1) with
     | (c, s2) =>
       if c ≠ '=' then .err (throwErr '=' c)
       else
         let valRes : String × PState :=
           match read (skipWhitespace s2) with
           | (c2, s3) =>
             if c2 = '"' then readUntil '"' s3
             else readWord (unread c2 s3)
         match valRes with
         | (value, s4) =>
           match read (skipWhitespace s4) with
           | (c3, s5) =>
             if c3 ≠ ';' then .err (throwErr ';' c3)
             else
               let oe : OptionElement :=
                 { Name := name, Value := value, IsParenthesized := isParen }
               match ctx with
               | .msgObj me =>
                 .ok (s5, pf, .msgObj { me with Options := me.Options ++ [oe] })
               | .oneOfObj ooe =>
                 .ok (s5, pf, .oneOfObj { ooe with Options := ooe.Options ++ [oe] })
               | .enumObj ee =>
                 .ok (s5, pf, .enumObj { ee with Options := ee.Options ++ [oe] })
               | .serviceObj se =>
                 .ok (s5, pf, .serviceObj { se with Options := se.Options ++ [oe] })
               | .rpcObj re =>
                 .ok (s5, pf, .rpcObj { re with Options := re.Options ++ [oe] })
               | .fileObj =>
                 .ok (s5, { pf with Options := pf.Options ++ [oe] }, .fileObj)
               | .extendObj xe => .ok (s5, pf, .extendObj xe))
  | .err e => .err e
  | .diverge => .diverge

/-- `parser.readField`. -/
def readField (fuel : Nat) (s : PState) (pf : ProtoFile) (label : String)
    (documentation : String) (ctx : CtxObj) : PResult (PState × CtxObj) :=
  if label = optionalLbl && pf.Syntax = proto3 then
    .err ("Explicit 'optional' labels are disallowed in the proto3 syntax. " ++
      "To define 'optional' fields in proto3, simply remove the 'optional' label, as fields " ++
      "are 'optional' by default.")
  else if label = requiredLbl && pf.Syntax = proto3 then
    .err "Required fields are not allowed in proto3"
  else if label = requiredLbl && ctx.ctxType = CtxType.extendCtx then
    .err "Message extensions cannot have required fields"
  else
    let withLabel := label = requiredLbl || label = optionalLbl || label = repeatedLbl
    if withLabel && ctx.ctxType = CtxType.oneOfCtx then
      .err ("Label '" ++ label ++ "' is disallowed in oneoff field")
    else
      let feLabel := if withLabel then label else ""
      let dtStrRes : String × PState :=
        if withLabel then readWord (skipWhitespace s) else (label, s)
      match dtStrRes with
      | (dataTypeStr, s1) =>
        match readDataTypeInternal fuel s1 dataTypeStr with
        | .ok (feType, s2) =>
          if feType.Category = DataTypeCategory.MapDataTypeCategory &&
              (feLabel = repeatedLbl || feLabel = requiredLbl || feLabel = optionalLbl) then
            .err ("Label " ++ feLabel ++ " is not allowed on map fields")
          else if feType.Category = DataTypeCategory.MapDataTypeCategory &&
              ctx.ctxType = CtxType.oneOfCtx then
            .err "Map fields are not allowed in oneofs"
          else if feType.Category = DataTypeCategory.MapDataTypeCategory &&
              ctx.ctxType = CtxType.extendCtx then
            .err "Map fields are not allowed to be extensions"
          else if feType.Category = DataTypeCategory.MapDataTypeCategory &&
              (match feType with
               | .mapDT k _ => k.Name = "float" || k.Name = "double" || k.Name = "bytes"
               | _ => false) then
            .err "Key in map fields cannot be float, double or bytes"
          else if feType.Category = DataTypeCategory.MapDataTypeCategory &&
              (match feType with
               | .mapDT k _ => k.Category = DataTypeCategory.NamedDataTypeCategory
               | _ => false) then
            .err "Key in map fields cannot be a named type"
          else
            match readName (skipWhitespace s2) with
            | .ok (feName, _, s3) =>
              (match read (skipWhitespace s3) with
               | (c, s4) =>
                 if c ≠ '=' then .err (throwErr '=' c)
                 else
                   match readInt (skipWhitespace s4) with
                   | .ok (feTag, s5) =>
                     (match readListOptionsOnALine s5 with
                      | .ok (feOptions, s6) =>
                        let fe : FieldElement :=
                          { Name := feName, Documentation := documentation,
                            Label := feLabel, Type' := feType, Tag := feTag,
                            Options := feOptions }
                        (match ctx with
                         | .msgObj me =>
                           .ok (s6, .msgObj { me with Fields := me.Fields ++ [fe] })
                         | .extendObj xe =>
                           .ok (s6, .extendObj { xe with Fields := xe.Fields ++ [fe] })
                         | .oneOfObj oe =>
                           .ok (s6, .oneOfObj { oe with Fields := oe.Fields ++ [fe] })
                         | other => .ok (s6, other))
                      | .err e => .err e
                      | .diverge => .diverge)
                   | .err e => .err e
                   | .diverge => .diverge)
            | .err e => .err e
            | .diverge => .diverge
        | .err e => .err e
        | .diverge => .diverge

/-- `parser.readEnumConstant`. -/
def readEnumConstant (s : PState) (label : String) (documentation : String)
    (ctx : CtxObj) : PResult (PState × CtxObj) :=
  match read (skipWhitespace s) with
  | (c, s1) =>
    if c ≠ '=' then .err (throwErr '=' c)
    else
      match readInt (skipWhitespace s1) with
      | .ok (tag, s2) =>
        (match readListOptionsOnALine s2 with
         | .ok (ecOptions, s3) =>
           let ec : EnumConstantElement :=
             { Name := label, Tag := tag, Documentation := documentation,
               Options := ecOptions }
           (match ctx with
            | .enumObj ee =>
              .ok (s3, .enumObj { ee with EnumConstants := ee.EnumConstants ++ [ec] })
            | _ => .err "panic: interface conversion")
         | .err e => .err e
         | .diverge => .diverge)
      | .err e =>
        .err ("Unable to read tag for Enum Constant: " ++ label ++ " due to: " ++ e)
      | .diverge => .diverge

/-- `parser.readExtensions`. -/
def readExtensions (s : PState) (pf : ProtoFile) (documentation : String)
    (ctx : CtxObj) : PResult (PState × CtxObj) :=
  if pf.Syntax = proto3 then
    .err "Extension ranges are not allowed in proto3"
  else
    match readInt (skipWhitespace s) with
    | .ok (start, s1) =>
      (match read s1 with
       | (c, s2) =>
         let endRes : PResult (Int × PState) :=
           if c ≠ ';' then
             match readWord (skipWhitespace (unread c s2)) with
             | (w, s3) =>
               if w ≠ "to" then .err ("Expected 'to', but found: " ++ w)
               else
                 match readWord (skipWhitespace s3) with
                 | (endStr, s4) =>
                   if endStr = "max" then .ok (536870911, s4)
                   else
                     match goAtoi endStr with
                     | .ok v => .ok (v, s4)
                     | .err e => .err e
                     | .diverge => .diverge
           else .ok (start, s2)
         match endRes with
         | .ok (theEnd, s5) =>
           let xe : ExtensionsElement :=
             { Documentation := documentation, Start := start, End := theEnd }
           (match ctx with
            | .msgObj me =>
              .ok (s5, .msgObj { me with Extensions := me.Extensions ++ [xe] })
            | _ => .err "panic: interface conversion")
         | .err e => .err e
         | .diverge => .diverge)
    | .err e => .err e
    | .diverge => .diverge

/-- Loop of `parser.readReservedRanges`. -/
def readReservedRangesLoop (documentation : String) :
    Nat → PState → MessageElement → PResult (PState × MessageElement)
  | 0, _, _ => .diverge
  | fuel + 1, s, me =>
    match readInt s with
    | .ok (start, s1) =>
      let rr : ReservedRangeElement :=
        { Start := start, End := start, Documentation := documentation }
      (match read s1 with
       | (c, s2) =>
         if c = ';' then
           .ok (s2, { me with ReservedRanges := me.ReservedRanges ++ [rr] })
         else if c = ',' then
           readReservedRangesLoop documentation fuel (skipWhitespace s2)
             { me with ReservedRanges := me.ReservedRanges ++ [rr] }
         else
           match readWord (skipWhitespace (unread c s2)) with
           | (w, s3) =>
             if w ≠ "to" then .err ("Expected 'to', but found: " ++ w)
             else
               match readInt (skipWhitespace s3) with
               | .ok (theEnd, s4) =>
                 let rr2 := { rr with End := theEnd }
                 (match read s4 with
                  | (c2, s5) =>
                    if c2 = ';' then
                      .ok (s5, { me with ReservedRanges := me.ReservedRanges ++ [rr2] })
                    else if c2 = ',' then
                      readReservedRangesLoop documentation fuel (skipWhitespace s5)
                        { me with ReservedRanges := me.ReservedRanges ++ [rr2] }
                    else .err ("Expected ',' or ';', but found: " ++ quoteRune c2))
               | .err e => .err e
               | .diverge => .diverge)
    | .err e => .err e
    | .diverge => .diverge

/-- Loop of `parser.readReservedNames`. -/
def readReservedNamesLoop (_documentation : String) :
    Nat → PState → MessageElement → PResult (PState × MessageElement)
  | 0, _, _ => .diverge
  | fuel + 1, s, me =>
    match readQuotedString false s with
    | .ok (name, s1) =>
      let me1 := { me with ReservedNames := me.ReservedNames ++ [name] }
      (match read s1 with
       | (c, s2) =>
         if c = ';' then .ok (s2, me1)
         else if c ≠ ',' then .err (throwErr ',' c)
         else readReservedNamesLoop _documentation fuel (skipWhitespace s2) me1)
    | .err e => .err e
    | .diverge => .diverge

/-- `parser.readReserved`. -/
def readReserved (fuel : Nat) (s : PState) (documentation : String)
    (ctx : CtxObj) : PResult (PState × CtxObj) :=
  match ctx with
  | .msgObj me =>
    (match read (skipWhitespace s) with
     | (c, s1) =>
       let s2 := unread c s1
       let res :=
         if isDigit c then readReservedRangesLoop documentation fuel s2 me
         else readReservedNamesLoop documentation fuel s2 me
       match res with
       | .ok (s3, me1) => .ok (s3, .msgObj me1)
       | .err e => .err e
       | .diverge => .diverge)
  | _ => .err "panic: interface conversion"

/-- `parser.readImport`. -/
def readImport (s : PState) (pf : ProtoFile) : PResult (PState × ProtoFile) :=
  match read (skipWhitespace s) with
  | (c, s1) =>
    let s2 := unread c s1
    let depRes : PResult (String × PState × Bool) :=
      if c = '"' then
        match readQuotedString true s2 with
        | .ok (importString, s3) => .ok (importString, s3, false)
        | .err e => .err e
        | .diverge => .diverge
      else
        match readWord s2 with
        | (publicStr, s3) =>
          if publicStr ≠ "public" then
            .err ("Expected 'public', but found: " ++ publicStr)
          else
            match readQuotedString true (skipWhitespace s3) with
            | .ok (importString, s4) => .ok (importString, s4, true)
            | .err e => .err e
            | .diverge => .diverge
    match depRes with
    | .ok (importString, s5, isPublic) =>
      (match read s5 with
       | (c2, s6) =>
         if c2 ≠ ';' then .err (throwErr ';' c2)
         else if isPublic then
           .ok (s6, { pf with PublicDependencies := pf.PublicDependencies ++ [importString] })
         else
           .ok (s6, { pf with Dependencies := pf.Dependencies ++ [importString] }))
    | .err e => .err e
    | .diverge => .diverge

/-- `parser.readSyntax`. -/
def readSyntax (s : PState) (pf : ProtoFile) : PResult (PState × ProtoFile) :=
  match read (skipWhitespace s) with
  | (c, s1) =>
    if c ≠ '=' then .err (throwErr '=' c)
    else
      match readQuotedString false (skipWhitespace s1) with
      | .ok (syn, s2) =>
        if syn ≠ "proto2" && syn ≠ proto3 then
          .err ("'syntax' must be 'proto2' or 'proto3'. Found: " ++ syn)
        else
          (match read s2 with
           | (c2, s3) =>
             if c2 ≠ ';' then .err (throwErr ';' c2)
             else .ok (s3, { pf with Syntax := syn }))
      | .err e => .err e
      | .diverge => .diverge

/-- `parser.readRequestResponseType`.  When `readDataTypeInternal` fails,
the Go type switch sees a `nil` interface and reports "Expected message
type", masking the inner error. -/
def readRequestResponseType (fuel : Nat) (s : PState) :
    PResult (NamedDataType × PState) :=
  match readWord s with
  | (name0, s1) =>
    let streamRes : Bool × String × PState :=
      if name0 = "stream" then
        match readWord (skipWhitespace s1) with
        | (name1, s2) => (true, name1, s2)
      else (false, name0, s1)
    match streamRes with
    | (requiresStreaming, name, s3) =>
      match readDataTypeInternal fuel (skipWhitespace s3) name with
      | .ok (dt, s4) =>
        (match dt with
         | .named ndt => .ok ({ ndt with supportsStreaming := requiresStreaming }, s4)
         | _ => .err "Expected message type")
      | .err _ => .err "Expected message type"
      | .diverge => .diverge

/-! ## The recursive-descent declaration parser

The mutually recursive block below mirrors `readDeclaration`,
`readDeclarationsInLoop`, `readMessage`, `readEnum`, `readOneOf`,
`readExtend`, `readService` and `readRPC`.  `pfx` is the parser's current
qualified-name prefix (`parser.prefix`); `readDeclaration` and the loops
return the possibly updated prefix (only a `package` declaration in file
context changes it), while `readMessage` restores the caller's prefix on
exit as the `defer` in the source does. -/

mutual

/-- `parser.readDeclaration`. -/
def readDeclaration (fuel : Nat) (s : PState) (pfx : String) (pf : ProtoFile)
    (documentation : String) (ctx : CtxObj) :
    PResult (PState × String × ProtoFile × CtxObj) :=
  match fuel with
  | 0 => .diverge
  | n + 1 =>
    match read s with
    | (c, s0) =>
      if c = ';' then .ok (s0, pfx, pf, ctx)
      else
        match readWord (unread c s0) with
        | (label, s1) =>
          if label = "package" then
            if !ctx.ctxType.permitsPackage then
              .err ("Unexpected '" ++ label ++ "' in context: " ++ ctx.ctxType.str)
            else
              match readWord (skipWhitespace s1) with
              | (pkg, s2) => .ok (s2, pkg ++ ".", { pf with PackageName := pkg }, ctx)
          else if label = "syntax" then
            if !ctx.ctxType.permitsSyntax then
              .err ("Unexpected '" ++ label ++ "' in context: " ++ ctx.ctxType.str)
            else
              match readSyntax s1 pf with
              | .ok (s2, pf1) => .ok (s2, pfx, pf1, ctx)
              | .err e => .err e
              | .diverge => .diverge
          else if label = "import" then
            if !ctx.ctxType.permitsImport then
              .err ("Unexpected '" ++ label ++ "' in context: " ++ ctx.ctxType.str)
            else
              match readImport s1 pf with
              | .ok (s2, pf1) => .ok (s2, pfx, pf1, ctx)
              | .err e => .err e
              | .diverge => .diverge
          else if label = "option" then
            if !ctx.ctxType.permitsOption then
              .err ("Unexpected '" ++ label ++ "' in context: " ++ ctx.ctxType.str)
            else
              match readOption s1 pf documentation ctx with
              | .ok (s2, pf1, ctx1) => .ok (s2, pfx, pf1, ctx1)
              | .err e => .err e
              | .diverge => .diverge
          else if label = "message" then
            if !ctx.ctxType.permitsMsg then
              .err ("Unexpected '" ++ label ++ "' in context: " ++ ctx.ctxType.str)
            else
              match readMessage n s1 pfx pf documentation ctx with
              | .ok (s2, pf1, ctx1) => .ok (s2, pfx, pf1, ctx1)
              | .err e => .err e
              | .diverge => .diverge
          else if label = "enum" then
            if !ctx.ctxType.permitsEnum then
              .err ("Unexpected '" ++ label ++ "' in context: " ++ ctx.ctxType.str)
            else
              match readEnum n s1 pfx pf documentation ctx with
              | .ok (s2, pf1, ctx1) => .ok (s2, pfx, pf1, ctx1)
              | .err e => .err e
              | .diverge => .diverge
          else if label = "extend" then
            if !ctx.ctxType.permitsExtend then
              .err ("Unexpected '" ++ label ++ "' in context: " ++ ctx.ctxType.str)
            else
              match readExtend n s1 pfx pf documentation ctx with
              | .ok (s2, pf1, ctx1) => .ok (s2, pfx, pf1, ctx1)
              | .err e => .err e
              | .diverge => .diverge
          else if label = "service" then
            match readService n s1 pfx pf documentation with
            | .ok (s2, pf1) => .ok (s2, pfx, pf1, ctx)
            | .err e => .err e
            | .diverge => .diverge
          else if label = "rpc" then
            if !ctx.ctxType.permitsRPC then
              .err ("Unexpected '" ++ label ++ "' in context: " ++ ctx.ctxType.str)
            else
              match ctx with
              | .serviceObj se =>
                (match readRPC n s1 pfx pf se documentation with
                 | .ok (s2, pf1, se1) => .ok (s2, pfx, pf1, .serviceObj se1)
                 | .err e => .err e
                 | .diverge => .diverge)
              | _ => .err "panic: interface conversion"
          else if label = "oneof" then
            if !ctx.ctxType.permitsOneOf then
              .err ("Unexpected '" ++ label ++ "' in context: " ++ ctx.ctxType.str)
            else
              match readOneOf n s1 pfx pf documentation ctx with
              | .ok (s2, pf1, ctx1) => .ok (s2, pfx, pf1, ctx1)
              | .err e => .err e
              | .diverge => .diverge
          else if label = "extensions" then
            if !ctx.ctxType.permitsExtensions then
              .err ("Unexpected '" ++ label ++ "' in context: " ++ ctx.ctxType.str)
            else
              match readExtensions s1 pf documentation ctx with
              | .ok (s2, ctx1) => .ok (s2, pfx, pf, ctx1)
              | .err e => .err e
              | .diverge => .diverge
          else if label = "reserved" then
            if !ctx.ctxType.permitsReserved then
              .err ("Unexpected '" ++ label ++ "' in context: " ++ ctx.ctxType.str)
            else
              match readReserved n s1 documentation ctx with
              | .ok (s2, ctx1) => .ok (s2, pfx, pf, ctx1)
              | .err e => .err e
              | .diverge => .diverge
          else if ctx.ctxType = CtxType.msgCtx || ctx.ctxType = CtxType.extendCtx ||
              ctx.ctxType = CtxType.oneOfCtx then
            if !ctx.ctxType.permitsField then .err "fields must be nested"
            else
              match readField n s1 pf label documentation ctx with
              | .ok (s2, ctx1) => .ok (s2, pfx, pf, ctx1)
              | .err e => .err e
              | .diverge => .diverge
          else if ctx.ctxType = CtxType.enumCtx then
            match readEnumConstant s1 label documentation ctx with
            | .ok (s2, ctx1) => .ok (s2, pfx, pf, ctx1)
            | .err e => .err e
            | .diverge => .diverge
          else if label ≠ "" then
            .err ("Unexpected '" ++ label ++ "' in context: " ++ ctx.ctxType.str)
          else .ok (s1, pfx, pf, ctx)

/-- `parser.readDeclarationsInLoop`. -/
def readDeclarationsInLoop (fuel : Nat) (s : PState) (pfx : String)
    (pf : ProtoFile) (ctx : CtxObj) :
    PResult (PState × String × ProtoFile × CtxObj) :=
  match fuel with
  | 0 => .diverge
  | n + 1 =>
    match readDocumentationIfFound n s with
    | .ok (doc, s1) =>
      let s2 := skipWhitespace s1
      if s2.eofReached then
        .err ("Reached end of input in " ++ ctx.ctxType.str ++ " definition (missing '\x7d')")
      else
        (match read s2 with
         | (c, s3) =>
           if c = '}' then .ok (s3, pfx, pf, ctx)
           else
             match readDeclaration n (unread c s3) pfx pf doc ctx with
             | .ok (s4, pfx1, pf1, ctx1) => readDeclarationsInLoop n s4 pfx1 pf1 ctx1
             | .err e => .err e
             | .diverge => .diverge)
    | .err e => .err e
    | .diverge => .diverge

/-- `parser.readMessage`. -/
def readMessage (fuel : Nat) (s : PState) (pfx : String) (pf : ProtoFile)
    (documentation : String) (ctx : CtxObj) :
    PResult (PState × ProtoFile × CtxObj) :=
  match fuel with
  | 0 => .diverge
  | n + 1 =>
    match readName (skipWhitespace s) with
    | .ok (name, _, s1) =>
      let me : MessageElement :=
        { Name := name, QualifiedName := pfx ++ name,
          Documentation := documentation, Options := [], Fields := [],
          Enums := [], OneOfs := [], Extensions := [], ReservedRanges := [],
          ReservedNames := [], Messages := [], ExtendDeclarations := [] }
      let innerPfx := pfx ++ name ++ "."
      (match read (skipWhitespace s1) with
       | (c, s2) =>
         if c ≠ '{' then .err (throwErr '{' c)
         else
           match readDeclarationsInLoop n s2 innerPfx pf (.msgObj me) with
           | .ok (s3, _, pf1, innerCtx1) =>
             (match innerCtx1 with
              | .msgObj me1 =>
                (match ctx with
                 | .msgObj parent =>
                   .ok (s3, pf1, .msgObj { parent with Messages := parent.Messages ++ [me1] })
                 | _ =>
                   .ok (s3, { pf1 with Messages := pf1.Messages ++ [me1] }, ctx))
              | _ => .err "panic: interface conversion")
           | .err e => .err e
           | .diverge => .diverge)
    | .err e => .err e
    | .diverge => .diverge

/-- `parser.readEnum`. -/
def readEnum (fuel : Nat) (s : PState) (pfx : String) (pf : ProtoFile)
    (documentation : String) (ctx : CtxObj) :
    PResult (PState × ProtoFile × CtxObj) :=
  match fuel with
  | 0 => .diverge
  | n + 1 =>
    match readName (skipWhitespace s) with
    | .ok (name, _, s1) =>
      (match read (skipWhitespace s1) with
       | (c, s2) =>
         if c ≠ '{' then .err (throwErr '{' c)
         else
           let ee : EnumElement :=
             { Name := name, QualifiedName := pfx ++ name,
               Documentation := documentation, Options := [], EnumConstants := [] }
           match readDeclarationsInLoop n s2 pfx pf (.enumObj ee) with
           | .ok (s3, _, pf1, innerCtx1) =>
             (match innerCtx1 with
              | .enumObj ee1 =>
                (match ctx with
                 | .msgObj parent =>
                   .ok (s3, pf1, .msgObj { parent with Enums := parent.Enums ++ [ee1] })
                 | _ =>
                   .ok (s3, { pf1 with Enums := pf1.Enums ++ [ee1] }, ctx))
              | _ => .err "panic: interface conversion")
           | .err e => .err e
           | .diverge => .diverge)
    | .err e => .err e
    | .diverge => .diverge

/-- `parser.readOneOf`. -/
def readOneOf (fuel : Nat) (s : PState) (pfx : String) (pf : ProtoFile)
    (documentation : String) (ctx : CtxObj) :
    PResult (PState × ProtoFile × CtxObj) :=
  match fuel with
  | 0 => .diverge
  | n + 1 =>
    match readName (skipWhitespace s) with
    | .ok (name, _, s1) =>
      let oe : OneOfElement :=
        { Name := name, Documentation := documentation, Fields := [], Options := [] }
      (match read (skipWhitespace s1) with
       | (c, s2) =>
         if c ≠ '{' then .err (throwErr '{' c)
         else
           match readDeclarationsInLoop n s2 pfx pf (.oneOfObj oe) with
           | .ok (s3, _, pf1, innerCtx1) =>
             (match innerCtx1 with
              | .oneOfObj oe1 =>
                (match ctx with
                 | .msgObj me =>
                   .ok (s3, pf1, .msgObj { me with OneOfs := me.OneOfs ++ [oe1] })
                 | _ => .err "panic: interface conversion")
              | _ => .err "panic: interface conversion")
           | .err e => .err e
           | .diverge => .diverge)
    | .err e => .err e
    | .diverge => .diverge

/-- `strings.ContainsRune`, on the string's character list so that concrete
instances evaluate. -/
def strContainsChar (s : String) (c : Char) : Bool :=
  s.data.contains c

/-- `strings.HasPrefix`, on the strings' character lists so that concrete
instances evaluate. -/
def strHasPfx (p s : String) : Bool :=
  p.data.isPrefixOf s.data

/-- `parser.readExtend`. -/
def readExtend (fuel : Nat) (s : PState) (pfx : String) (pf : ProtoFile)
    (documentation : String) (ctx : CtxObj) :
    PResult (PState × ProtoFile × CtxObj) :=
  match fuel with
  | 0 => .diverge
  | n + 1 =>
    match readName (skipWhitespace s) with
    | .ok (name, _, s1) =>
      let qualifiedName :=
        if !(strContainsChar name '.') && pfx ≠ "" then pfx ++ name else name
      let xe : ExtendElement :=
        { Name := name, QualifiedName := qualifiedName,
          Documentation := documentation, Fields := [] }
      (match read (skipWhitespace s1) with
       | (c, s2) =>
         if c ≠ '{' then .err (throwErr '{' c)
         else
           match readDeclarationsInLoop n s2 pfx pf (.extendObj xe) with
           | .ok (s3, _, pf1, innerCtx1) =>
             (match innerCtx1 with
              | .extendObj xe1 =>
                (match ctx with
                 | .msgObj me =>
                   .ok (s3, pf1,
                     .msgObj { me with ExtendDeclarations := me.ExtendDeclarations ++ [xe1] })
                 | _ =>
                   .ok (s3, { pf1 with ExtendDeclarations := pf1.ExtendDeclarations ++ [xe1] },
                     ctx))
              | _ => .err "panic: interface conversion")
           | .err e => .err e
           | .diverge => .diverge)
    | .err e => .err e
    | .diverge => .diverge

/-- `parser.readService`. -/
def readService (fuel : Nat) (s : PState) (pfx : String) (pf : ProtoFile)
    (documentation : String) : PResult (PState × ProtoFile) :=
  match fuel with
  | 0 => .diverge
  | n + 1 =>
    match readName (skipWhitespace s) with
    | .ok (name, _, s1) =>
      (match read (skipWhitespace s1) with
       | (c, s2) =>
         if c ≠ '{' then .err (throwErr '{' c)
         else
           let se : ServiceElement :=
             { Name := name, QualifiedName := pfx ++ name,
               Documentation := documentation, Options := [], RPCs := [] }
           match readDeclarationsInLoop n s2 pfx pf (.serviceObj se) with
           | .ok (s3, _, pf1, innerCtx1) =>
             (match innerCtx1 with
              | .serviceObj se1 =>
                .ok (s3, { pf1 with Services := pf1.Services ++ [se1] })
              | _ => .err "panic: interface conversion")
           | .err e => .err e
           | .diverge => .diverge)
    | .err e => .err e
    | .diverge => .diverge

/-- The option loop inside `parser.readRPC`'s `{ ... }` body. -/
def readRPCBodyLoop (fuel : Nat) (s : PState) (pfx : String) (pf : ProtoFile)
    (re : RPCElement) : PResult (PState × String × ProtoFile × RPCElement) :=
  match fuel with
  | 0 => .diverge
  | n + 1 =>
    match read s with
    | (c2, s1) =>
      if c2 = '}' then .ok (s1, pfx, pf, re)
      else
        let s2 := unread c2 s1
        if s2.eofReached then .ok (s2, pfx, pf, re)
        else
          match readDocumentationIfFound n s2 with
          | .ok (doc, s3) =>
            (match readDeclaration n (skipWhitespace s3) pfx pf doc (.rpcObj re) with
             | .ok (s4, pfx1, pf1, ctx1) =>
               (match ctx1 with
                | .rpcObj re1 => readRPCBodyLoop n s4 pfx1 pf1 re1
                | _ => .err "panic: interface conversion")
             | .err e => .err e
             | .diverge => .diverge)
          | .err e => .err e
          | .diverge => .diverge

/-- `parser.readRPC`. -/
def readRPC (fuel : Nat) (s : PState) (pfx : String) (pf : ProtoFile)
    (se : ServiceElement) (documentation : String) :
    PResult (PState × ProtoFile × ServiceElement) :=
  match fuel with
  | 0 => .diverge
  | n + 1 =>
    match readName (skipWhitespace s) with
    | .ok (name, _, s1) =>
      (match read (skipWhitespace s1) with
       | (c, s2) =>
         if c ≠ '(' then .err (throwErr '(' c)
         else
           match readRequestResponseType n s2 with
           | .ok (requestType, s3) =>
             (match read s3 with
              | (c2, s4) =>
                if c2 ≠ ')' then .err (throwErr ')' c2)
                else
                  match readWord (skipWhitespace s4) with
                  | (keyword, s5) =>
                    if keyword ≠ "returns" then
                      .err ("Expected 'returns', but found: " ++ keyword)
                    else
                      match read (skipWhitespace s5) with
                      | (c3, s6) =>
                        if c3 ≠ '(' then .err (throwErr '(' c3)
                        else
                          match readRequestResponseType n s6 with
                          | .ok (responseType, s7) =>
                            (match read s7 with
                             | (c4, s8) =>
                               if c4 ≠ ')' then .err (throwErr ')' c4)
                               else
                                 let re : RPCElement :=
                                   { Name := name, Documentation := documentation,
                                     Options := [], RequestType := requestType,
                                     ResponseType := responseType }
                                 match read (skipWhitespace s8) with
                                 | (c5, s9) =>
                                   if c5 = '{' then
                                     match readRPCBodyLoop n s9 pfx pf re with
                                     | .ok (s10, _, pf1, re1) =>
                                       .ok (s10, pf1, { se with RPCs := se.RPCs ++ [re1] })
                                     | .err e => .err e
                                     | .diverge => .diverge
                                   else if c5 ≠ ';' then .err (throwErr ';' c5)
                                   else
                                     .ok (s9, pf, { se with RPCs := se.RPCs ++ [re] }))
                          | .err e => .err e
                          | .diverge => .diverge
              )
           | .err e => .err e
           | .diverge => .diverge)
    | .err e => .err e
    | .diverge => .diverge

end

/-- The top-level loop of `parser.parse`. -/
def parseLoop (fuel : Nat) (s : PState) (pfx : String) (pf : ProtoFile) :
    PResult (PState × String × ProtoFile) :=
  match fuel with
  | 0 => .diverge
  | n + 1 =>
    match readDocumentationIfFound n s with
    | .ok (doc, s1) =>
      if s1.eofReached then .ok (s1, pfx, pf)
      else
        let s2 := skipWhitespace s1
        if s2.eofReached then .ok (s2, pfx, pf)
        else
          match readDeclaration n s2 pfx pf doc .fileObj with
          | .ok (s3, pfx1, pf1, _) =>
            if s3.eofReached then .ok (s3, pfx1, pf1)
            else parseLoop n s3 pfx1 pf1
          | .err e => .err e
          | .diverge => .diverge
    | .err e => .err e
    | .diverge => .diverge

/-- `pbparser.parse`: run the parser over the reader's characters,
populating the given `ProtoFile` (always the zero value at call sites). -/
def parse (fuel : Nat) (r : List Char) (pf : ProtoFile) : PResult ProtoFile :=
  let s0 : PState := { remaining := r, lastReadOk := false, eofReached := false }
  match parseLoop fuel s0 "" pf with
  | .ok (_, _, pf1) => .ok pf1
  | .err e => .err e
  | .diverge => .diverge

/-- Parse a string with the zero `ProtoFile`, as `Parse` does. -/
def runParse (fuel : Nat) (text : String) : PResult ProtoFile :=
  parse fuel text.data emptyProtoFile

/-! ## Verifier (`verifier.go`, final variant)

Go maps become lists: `map[string]bool` a list of members, the package →
oracle map an insertion-ordered association list (Go's iteration order over
a map is unspecified; the insertion order is one admissible order).
`ImportModuleProvider.Provide` composed with the reader is a function from
the module identifier to failure / nil reader / content characters. -/

/-- Expansion of a `MessageElement`'s `sizeOf` into its fields, used by the
termination proofs of the verifier's nested-message recursions. -/
theorem MessageElement.sizeOf_expand (me : MessageElement) :
    sizeOf me = 1 + sizeOf me.Name + sizeOf me.QualifiedName +
      sizeOf me.Documentation + sizeOf me.Options + sizeOf me.Fields +
      sizeOf me.Enums + sizeOf me.OneOfs + sizeOf me.Extensions +
      sizeOf me.ReservedRanges + sizeOf me.ReservedNames +
      sizeOf me.Messages + sizeOf me.ExtendDeclarations := by
  cases me
  simp

/-- `protoFileOracle` from `verifier.go`. -/
structure ProtoFileOracle where
  pf : ProtoFile
  msgmap : List String
  enummap : List String

/-- The package → oracle map of `verify`. -/
abbrev OracleMap : Type := List (String × ProtoFileOracle)

/-- Lookup in the oracle map (`m[pkg]`, without the zero-value default). -/
def lookupOrcl (m : OracleMap) (k : String) : Option ProtoFileOracle :=
  (List.find? (fun p => p.1 == k) m).map (fun p => p.2)

/-- The zero `protoFileOracle` Go yields for a missing key. -/
def orclZero : ProtoFileOracle :=
  { pf := emptyProtoFile, msgmap := [], enummap := [] }

/-- `m[pkg]` with the Go zero-value default. -/
def getOrcl (m : OracleMap) (k : String) : ProtoFileOracle :=
  (lookupOrcl m k).getD orclZero

/-- In-place update of one entry of the oracle map. -/
def updateOrcl (m : OracleMap) (k : String) (f : ProtoFileOracle → ProtoFileOracle) :
    OracleMap :=
  List.map (fun p => if p.1 == k then (p.1, f p.2) else p) m

/-- `merge` from `verifier.go`: append `src`'s dependencies, options,
messages, enums and extend declarations onto `dest` (services are not
merged, exactly as in the source). -/
def merge (dest : ProtoFile) (src : ProtoFile) : ProtoFile :=
  { dest with
    Dependencies := dest.Dependencies ++ src.Dependencies,
    PublicDependencies := dest.PublicDependencies ++ src.PublicDependencies,
    Options := dest.Options ++ src.Options,
    Messages := dest.Messages ++ src.Messages,
    Enums := dest.Enums ++ src.Enums,
    ExtendDeclarations := dest.ExtendDeclarations ++ src.ExtendDeclarations }

/-- `gatherNestedQNames` over a message list: all nested message qualified
names and all nested enum qualified names, at every depth.  Together with
the top-level names this is `makeQNameLookup`'s content. -/
def gatherMsgs : List MessageElement → List String × List String
  | [] => ([], [])
  | m :: rest =>
    match gatherMsgs m.Messages, gatherMsgs rest with
    | (ma, ea), (mb, eb) =>
      (m.QualifiedName :: (ma ++ mb),
       (m.Enums.map (fun e => e.QualifiedName)) ++ ea ++ eb)
termination_by l => sizeOf l
decreasing_by all_goals
  ((try simp only [List.cons.sizeOf_spec, MessageElement.sizeOf_expand]); omega)

/-- `makeQNameLookup` from `verifier.go`. -/
def makeQNameLookup (dpf : ProtoFile) : List String × List String :=
  match gatherMsgs dpf.Messages with
  | (msgmap, enummap) => (msgmap, enummap ++ dpf.Enums.map (fun e => e.QualifiedName))

/-- `isDatatypeInSamePackage` from `verifier.go`. -/
def isDatatypeInSamePackage (datatypeName : String) :
    List String → Bool × String
  | [] => (true, "")
  | pkg :: rest =>
    if strHasPfx (pkg ++ ".") datatypeName then (false, pkg)
    else isDatatypeInSamePackage datatypeName rest

/-- `usesPackage` from `verifier.go`. -/
def usesPackage (s : String) (pkg : String) (packageNames : List String) : Bool :=
  if strContainsChar s '.' then
    match isDatatypeInSamePackage s packageNames with
    | (inSamePkg, pkgName) => !inSamePkg && pkg == pkgName
  else false

/-- `checkImportedPackageUsage` from `verifier.go`. -/
def checkImportedPackageUsage (msgs : List MessageElement) (pkg : String)
    (packageNames : List String) : Bool :=
  match msgs with
  | [] => false
  | msg :: rest =>
    if msg.Fields.any (fun f =>
        f.Type'.Category = DataTypeCategory.NamedDataTypeCategory &&
          usesPackage f.Type'.Name pkg packageNames) then true
    else if msg.Messages.length > 0 &&
        checkImportedPackageUsage msg.Messages pkg packageNames then true
    else checkImportedPackageUsage rest pkg packageNames
termination_by sizeOf msgs
decreasing_by all_goals
  ((try simp only [List.cons.sizeOf_spec, MessageElement.sizeOf_expand]); omega)

/-- The per-RPC part of `areImportedPackagesUsed`: is any request/response
type referring to the package? -/
def rpcUsesPackage (services : List ServiceElement) (pkg : String)
    (packageNames : List String) : Bool :=
  services.any (fun sv => sv.RPCs.any (fun r =>
    usesPackage r.RequestType.name pkg packageNames ||
      usesPackage r.ResponseType.name pkg packageNames))

/-- The `for _, pkg := range packageNames` loop of `areImportedPackagesUsed`. -/
def areImportedPackagesUsedLoop (pf : ProtoFile) (packageNames : List String) :
    List String → PResult Unit
  | [] => .ok ()
  | pkg :: rest =>
    if rpcUsesPackage pf.Services pkg packageNames ||
        checkImportedPackageUsage pf.Messages pkg packageNames then
      areImportedPackagesUsedLoop pf packageNames rest
    else .err ("Imported package: " ++ pkg ++ " but not used")

/-- `areImportedPackagesUsed` from `verifier.go`. -/
def areImportedPackagesUsed (pf : ProtoFile) (packageNames : List String) :
    PResult Unit :=
  areImportedPackagesUsedLoop pf packageNames packageNames

/-- The enum-name loop of `validateUniqueMessageEnumNames` (threads the
seen-name set). -/
def uniqueEnumNamesLoop (ctxName : String) (seen : List String) :
    List EnumElement → PResult (List String)
  | [] => .ok seen
  | en :: rest =>
    if seen.contains en.Name then
      .err ("Duplicate name " ++ en.Name ++ " in " ++ ctxName)
    else uniqueEnumNamesLoop ctxName (seen ++ [en.Name]) rest

/-- The message-name loop of `validateUniqueMessageEnumNames`. -/
def uniqueMsgNamesLoop (ctxName : String) (seen : List String) :
    List MessageElement → PResult (List String)
  | [] => .ok seen
  | msg :: rest =>
    if seen.contains msg.Name then
      .err ("Duplicate name " ++ msg.Name ++ " in " ++ ctxName)
    else uniqueMsgNamesLoop ctxName (seen ++ [msg.Name]) rest

mutual

/-- `validateUniqueMessageEnumNames` from `verifier.go`. -/
def validateUniqueMessageEnumNames (ctxName : String) (enums : List EnumElement)
    (msgs : List MessageElement) : PResult Unit :=
  match uniqueEnumNamesLoop ctxName [] enums with
  | .ok seen =>
    (match uniqueMsgNamesLoop ctxName seen msgs with
     | .ok _ => uniqueNamesChildrenLoop msgs
     | .err e => .err e
     | .diverge => .diverge)
  | .err e => .err e
  | .diverge => .diverge
termination_by 2 * sizeOf msgs + 1
decreasing_by all_goals
  ((try simp only [List.cons.sizeOf_spec, MessageElement.sizeOf_expand]); omega)

/-- The recursion of `validateUniqueMessageEnumNames` into child messages. -/
def uniqueNamesChildrenLoop (msgs : List MessageElement) : PResult Unit :=
  match msgs with
  | [] => .ok ()
  | msg :: rest =>
    match validateUniqueMessageEnumNames ("message " ++ msg.Name) msg.Enums msg.Messages with
    | .ok _ => uniqueNamesChildrenLoop rest
    | .err e => .err e
    | .diverge => .diverge
termination_by 2 * sizeOf msgs
decreasing_by all_goals
  ((try simp only [List.cons.sizeOf_spec, MessageElement.sizeOf_expand]); omega)

end

/-- `isAllowAlias` from `verifier.go`. -/
def isAllowAlias (en : EnumElement) : Bool :=
  en.Options.any (fun op => op.Name == "allow_alias" && op.Value == "true")

/-- The per-constant loop of `validateEnumConstantTagAliases` (threads the
seen-tag set of one enum). -/
def enumTagLoop (en : EnumElement) (seen : List Int) :
    List EnumConstantElement → PResult Unit
  | [] => .ok ()
  | enc :: rest =>
    if seen.contains enc.Tag && !isAllowAlias en then
      .err (enc.Name ++
        " is reusing an enum value. If this is intended, set 'option allow_alias = true;' in the enum")
    else enumTagLoop en (seen ++ [enc.Tag]) rest

/-- `validateEnumConstantTagAliases` from `verifier.go`. -/
def validateEnumConstantTagAliases : List EnumElement → PResult Unit
  | [] => .ok ()
  | en :: rest =>
    match enumTagLoop en [] en.EnumConstants with
    | .ok _ => validateEnumConstantTagAliases rest
    | .err e => .err e
    | .diverge => .diverge

mutual

/-- `validateEnumConstantTagAliasesInMessage` from `verifier.go`. -/
def validateEnumConstantTagAliasesInMessage (msg : MessageElement) : PResult Unit :=
  match validateEnumConstantTagAliases msg.Enums with
  | .ok _ => tagAliasesChildrenLoop msg.Messages
  | .err e => .err e
  | .diverge => .diverge
termination_by 2 * sizeOf msg + 1
decreasing_by all_goals
  ((try simp only [List.cons.sizeOf_spec, MessageElement.sizeOf_expand]); omega)

/-- The nested-message loop of `validateEnumConstantTagAliasesInMessage`. -/
def tagAliasesChildrenLoop (msgs : List MessageElement) : PResult Unit :=
  match msgs with
  | [] => .ok ()
  | m :: rest =>
    match validateEnumConstantTagAliasesInMessage m with
    | .ok _ => tagAliasesChildrenLoop rest
    | .err e => .err e
    | .diverge => .diverge
termination_by 2 * sizeOf msgs
decreasing_by all_goals
  ((try simp only [List.cons.sizeOf_spec, MessageElement.sizeOf_expand]); omega)

end

/-- The per-constant name loop of `validateEnumConstants`. -/
def constNamesLoop (ctxName : String) (seen : List String) :
    List EnumConstantElement → PResult (List String)
  | [] => .ok seen
  | enc :: rest =>
    if seen.contains enc.Name then
      .err ("Enum constant " ++ enc.Name ++ " is already defined in " ++ ctxName)
    else constNamesLoop ctxName (seen ++ [enc.Name]) rest

/-- The per-enum loop of `validateEnumConstants`. -/
def validateEnumConstantsLoop (ctxName : String) (seen : List String) :
    List EnumElement → PResult (List String)
  | [] => .ok seen
  | en :: rest =>
    match constNamesLoop ctxName seen en.EnumConstants with
    | .ok seen1 => validateEnumConstantsLoop ctxName seen1 rest
    | .err e => .err e
    | .diverge => .diverge

/-- `validateEnumConstants` from `verifier.go`. -/
def validateEnumConstants (ctxName : String) (enums : List EnumElement) :
    PResult Unit :=
  match validateEnumConstantsLoop ctxName [] enums with
  | .ok _ => .ok ()
  | .err e => .err e
  | .diverge => .diverge

mutual

/-- `validateEnumConstantsInMessage` from `verifier.go`. -/
def validateEnumConstantsInMessage (msg : MessageElement) : PResult Unit :=
  match validateEnumConstants ("message " ++ msg.Name) msg.Enums with
  | .ok _ => enumConstantsChildrenLoop msg.Messages
  | .err e => .err e
  | .diverge => .diverge
termination_by 2 * sizeOf msg + 1
decreasing_by all_goals
  ((try simp only [List.cons.sizeOf_spec, MessageElement.sizeOf_expand]); omega)

/-- The nested-message loop of `validateEnumConstantsInMessage`. -/
def enumConstantsChildrenLoop (msgs : List MessageElement) : PResult Unit :=
  match msgs with
  | [] => .ok ()
  | m :: rest =>
    match validateEnumConstantsInMessage m with
    | .ok _ => enumConstantsChildrenLoop rest
    | .err e => .err e
    | .diverge => .diverge
termination_by 2 * sizeOf msgs
decreasing_by all_goals
  ((try simp only [List.cons.sizeOf_spec, MessageElement.sizeOf_expand]); omega)

end

/-- `validateSyntax` from `verifier.go`. -/
def validateSyntax (pf : ProtoFile) : PResult Unit :=
  if pf.Syntax = "" then .err "No syntax specified in the proto file"
  else .ok ()

/-- `getDependencyPackageNames` from `verifier.go`. -/
def getDependencyPackageNames (mainPkgName : String) (m : OracleMap) :
    List String :=
  (List.filter (fun p => p.1 ≠ mainPkgName) m).map (fun p => p.1)

/-- `fd` from `verifier.go` (a named field type to validate): the field
name, the referenced type name (`category`) and the owning message. -/
structure Fd where
  name : String
  category : String
  msg : MessageElement

/-- `findFieldsToValidate` from `verifier.go`. -/
def findFieldsToValidate : List MessageElement → List Fd
  | [] => []
  | msg :: rest =>
    (msg.Fields.filterMap (fun f =>
      if f.Type'.Category = DataTypeCategory.NamedDataTypeCategory then
        some { name := f.Name, category := f.Type'.Name, msg := msg }
      else none)) ++
      (if msg.Messages.length > 0 then findFieldsToValidate msg.Messages else []) ++
      findFieldsToValidate rest
termination_by l => sizeOf l
decreasing_by all_goals
  ((try simp only [List.cons.sizeOf_spec, MessageElement.sizeOf_expand]); omega)

/-- `checkMsgName` from `verifier.go`. -/
def checkMsgName (m : String) (msgs : List MessageElement) : Bool :=
  match msgs with
  | [] => false
  | msg :: rest =>
    if msg.Name = m then true
    else if msg.Messages.length > 0 && checkMsgName m msg.Messages then true
    else checkMsgName m rest
termination_by sizeOf msgs
decreasing_by all_goals
  ((try simp only [List.cons.sizeOf_spec, MessageElement.sizeOf_expand]); omega)

mutual

/-- `checkEnumName` from `verifier.go`. -/
def checkEnumName (s : String) (msgs : List MessageElement)
    (enums : List EnumElement) : Bool :=
  if enums.any (fun en => en.Name = s) then true
  else checkEnumNameMsgsLoop s msgs
termination_by 2 * sizeOf msgs + 1
decreasing_by all_goals
  ((try simp only [List.cons.sizeOf_spec, MessageElement.sizeOf_expand]); omega)

/-- The recursive message loop of `checkEnumName`. -/
def checkEnumNameMsgsLoop (s : String) (msgs : List MessageElement) : Bool :=
  match msgs with
  | [] => false
  | msg :: rest =>
    if msg.Messages.length > 0 && checkEnumName s msg.Messages msg.Enums then true
    else checkEnumNameMsgsLoop s rest
termination_by 2 * sizeOf msgs
decreasing_by all_goals
  ((try simp only [List.cons.sizeOf_spec, MessageElement.sizeOf_expand]); omega)

end

/-- `checkMsgOrEnumName` from `verifier.go`. -/
def checkMsgOrEnumName (s : String) (msgs : List MessageElement)
    (enums : List EnumElement) : Bool :=
  if checkMsgName s msgs then true else checkEnumName s msgs enums

/-- `validateFieldDataTypes` from `verifier.go`. -/
def validateFieldDataTypes (mainpkg : String) (f : Fd)
    (msgs : List MessageElement) (enums : List EnumElement) (m : OracleMap)
    (packageNames : List String) : PResult Unit :=
  let found : Bool :=
    if strContainsChar f.category '.' then
      match isDatatypeInSamePackage f.category packageNames with
      | (inSamePkg, pkgName) =>
        if inSamePkg then
          let orcl := getOrcl m mainpkg
          let matchTerm :=
            if !(strHasPfx (mainpkg ++ ".") f.category) then
              mainpkg ++ "." ++ f.category
            else f.category
          orcl.msgmap.contains matchTerm || orcl.enummap.contains matchTerm
        else
          let orcl := getOrcl m pkgName
          orcl.msgmap.contains f.category || orcl.enummap.contains f.category
    else
      checkMsgOrEnumName f.category f.msg.Messages f.msg.Enums ||
        checkMsgOrEnumName f.category msgs enums
  if !found then
    .err ("Datatype: '" ++ f.category ++ "' referenced in field: '" ++ f.name ++
      "' is not defined")
  else .ok ()

/-- `validateRPCDataType` from `verifier.go`. -/
def validateRPCDataType (mainpkg : String) (service : String) (rpc : String)
    (datatype : NamedDataType) (msgs : List MessageElement) (m : OracleMap)
    (packageNames : List String) : PResult Unit :=
  let found : Bool :=
    if strContainsChar datatype.name '.' then
      match isDatatypeInSamePackage datatype.name packageNames with
      | (inSamePkg, pkgName) =>
        if inSamePkg then
          (getOrcl m mainpkg).msgmap.contains (mainpkg ++ "." ++ datatype.name)
        else
          (getOrcl m pkgName).msgmap.contains datatype.name
    else checkMsgName datatype.name msgs
  if !found then
    .err ("Datatype: '" ++ datatype.name ++ "' referenced in RPC: '" ++ rpc ++
      "' of Service: '" ++ service ++ "' is not defined OR is not a message type")
  else .ok ()

/-- `ImportModuleProvider.Provide` composed with reading the returned
reader: a module identifier yields a failure reason, a nil reader, or the
module's characters. -/
inductive ProvideResult where
  | failure (reason : String)
  | nilReader
  | content (chars : List Char)

/-- The import-resolution collaborator. -/
abbrev ImportModuleProvider : Type := String → ProvideResult

/-- `parseDependencies` from `verifier.go`.  The provider is optional as in
Go (`nil` interface); the loop only consults it when a dependency exists
(`verify` guarantees it is non-nil then). -/
def parseDependencies (fuel : Nat) (impr : Option ImportModuleProvider) :
    List String → OracleMap → PResult OracleMap
  | [], m => .ok m
  | d :: rest, m =>
    match impr with
    | none => .err "panic: nil ImportModuleProvider"
    | some prov =>
      match prov d with
      | .failure reason =>
        .err ("ImportModuleReader is unable to provide content of dependency module " ++
          d ++ ". Reason:: " ++ reason)
      | .nilReader =>
        .err ("ImportModuleReader is unable to provide reader for dependency module " ++ d)
      | .content chars =>
        match parse fuel chars emptyProtoFile with
        | .ok dpf =>
          (match validateSyntax dpf with
           | .ok _ =>
             (match makeQNameLookup dpf with
              | (msgmap, enummap) =>
                let orcl : ProtoFileOracle :=
                  { pf := dpf, msgmap := msgmap, enummap := enummap }
                if (lookupOrcl m dpf.PackageName).isSome then
                  parseDependencies fuel impr rest
                    (updateOrcl m dpf.PackageName (fun o =>
                      { o with msgmap := o.msgmap ++ orcl.msgmap,
                               enummap := o.enummap ++ orcl.enummap }))
                else parseDependencies fuel impr rest (m ++ [(dpf.PackageName, orcl)]))
           | .err e => .err e
           | .diverge => .diverge)
        | .err e =>
          .err ("Unable to parse dependency " ++ d ++ ". Reason:: " ++ e)
        | .diverge => .diverge

/-- The field-validation loop of `verify`. -/
def validateFieldsLoop (mainpkg : String) (msgs : List MessageElement)
    (enums : List EnumElement) (m : OracleMap) (packageNames : List String) :
    List Fd → PResult Unit
  | [] => .ok ()
  | f :: rest =>
    match validateFieldDataTypes mainpkg f msgs enums m packageNames with
    | .ok _ => validateFieldsLoop mainpkg msgs enums m packageNames rest
    | .err e => .err e
    | .diverge => .diverge

/-- The per-service RPC loop of `verify`. -/
def validateRPCsLoop (mainpkg : String) (sname : String)
    (msgs : List MessageElement) (m : OracleMap) (packageNames : List String) :
    List RPCElement → PResult Unit
  | [] => .ok ()
  | rpc :: rest =>
    match validateRPCDataType mainpkg sname rpc.Name rpc.RequestType msgs m packageNames with
    | .ok _ =>
      (match validateRPCDataType mainpkg sname rpc.Name rpc.ResponseType msgs m packageNames with
       | .ok _ => validateRPCsLoop mainpkg sname msgs m packageNames rest
       | .err e => .err e
       | .diverge => .diverge)
    | .err e => .err e
    | .diverge => .diverge

/-- The service loop of `verify`. -/
def validateServicesLoop (mainpkg : String) (msgs : List MessageElement)
    (m : OracleMap) (packageNames : List String) :
    List ServiceElement → PResult Unit
  | [] => .ok ()
  | sv :: rest =>
    match validateRPCsLoop mainpkg sv.Name msgs m packageNames sv.RPCs with
    | .ok _ => validateServicesLoop mainpkg msgs m packageNames rest
    | .err e => .err e
    | .diverge => .diverge

/-- The per-message loop of `verify` applying
`validateEnumConstantsInMessage`. -/
def enumConstantsMsgsLoop : List MessageElement → PResult Unit
  | [] => .ok ()
  | msg :: rest =>
    match validateEnumConstantsInMessage msg with
    | .ok _ => enumConstantsMsgsLoop rest
    | .err e => .err e
    | .diverge => .diverge

/-- The per-message loop of `verify` applying
`validateEnumConstantTagAliasesInMessage`. -/
def tagAliasesMsgsLoop : List MessageElement → PResult Unit
  | [] => .ok ()
  | msg :: rest =>
    match validateEnumConstantTagAliasesInMessage msg with
    | .ok _ => tagAliasesMsgsLoop rest
    | .err e => .err e
    | .diverge => .diverge

/-- `verify` from `verifier.go`. -/
def verify (fuel : Nat) (pf : ProtoFile) (p : Option ImportModuleProvider) :
    PResult Unit :=
  match validateSyntax pf with
  | .ok _ =>
    if (pf.Dependencies.length > 0 || pf.PublicDependencies.length > 0) && p.isNone then
      .err "ImportModuleProvider is required to validate imports"
    else
      match parseDependencies fuel p pf.Dependencies [] with
      | .ok m0 =>
        (match parseDependencies fuel p pf.PublicDependencies m0 with
         | .ok m1 =>
           (match makeQNameLookup pf with
            | (msgmap, enummap) =>
              let orcl : ProtoFileOracle := { pf := pf, msgmap := msgmap, enummap := enummap }
              let step : ProtoFile × OracleMap :=
                match lookupOrcl m1 pf.PackageName with
                | some entry =>
                  (merge pf entry.pf,
                   updateOrcl m1 pf.PackageName (fun o =>
                     { o with msgmap := o.msgmap ++ orcl.msgmap,
                              enummap := o.enummap ++ orcl.enummap }))
                | none => (pf, m1 ++ [(pf.PackageName, orcl)])
              match step with
              | (pf1, m2) =>
                let packageNames := getDependencyPackageNames pf.PackageName m2
                match areImportedPackagesUsed pf1 packageNames with
                | .ok _ =>
                  (match validateFieldsLoop pf.PackageName pf1.Messages pf1.Enums m2
                      packageNames (findFieldsToValidate pf1.Messages) with
                   | .ok _ =>
                     (match validateServicesLoop pf.PackageName pf1.Messages m2
                         packageNames pf1.Services with
                      | .ok _ =>
                        (match validateUniqueMessageEnumNames ("package " ++ pf.PackageName)
                            pf1.Enums pf1.Messages with
                         | .ok _ =>
                           (match validateEnumConstants ("package " ++ pf.PackageName)
                               pf1.Enums with
                            | .ok _ =>
                              (match enumConstantsMsgsLoop pf1.Messages with
                               | .ok _ =>
                                 (match validateEnumConstantTagAliases pf1.Enums with
                                  | .ok _ =>
                                    (match tagAliasesMsgsLoop pf1.Messages with
                                     | .ok _ => .ok ()
                                     | .err e => .err e
                                     | .diverge => .diverge)
                                  | .err e => .err e
                                  | .diverge => .diverge)
                               | .err e => .err e
                               | .diverge => .diverge)
                            | .err e => .err e
                            | .diverge => .diverge)
                         | .err e => .err e
                         | .diverge => .diverge)
                      | .err e => .err e
                      | .diverge => .diverge)
                   | .err e => .err e
                   | .diverge => .diverge)
                | .err e => .err e
                | .diverge => .diverge)
         | .err e => .err e
         | .diverge => .diverge)
      | .err e => .err e
      | .diverge => .diverge
  | .err e => .err e
  | .diverge => .diverge

/-! ## Claim-support definitions -/

/-- Substring containment, witnessed by an explicit decomposition. -/
def strContains (hay needle : String) : Prop :=
  ∃ pre post, hay = pre ++ needle ++ post

mutual

/-- The qualified-name invariant of a message subtree: every directly
nested enum and message is qualified by the enclosing message's qualified
name plus a dot, recursively at every depth. -/
def msgQNamesOk (me : MessageElement) : Bool :=
  (me.Enums.all fun e => e.QualifiedName == me.QualifiedName ++ "." ++ e.Name) &&
    msgsQNOk me.QualifiedName me.Messages
termination_by 2 * sizeOf me + 1
decreasing_by all_goals
  ((try simp only [List.cons.sizeOf_spec, MessageElement.sizeOf_expand]); omega)

/-- `msgQNamesOk` over a list of sibling messages below qualified name `qn`. -/
def msgsQNOk (qn : String) (l : List MessageElement) : Bool :=
  match l with
  | [] => true
  | m :: rest =>
    (m.QualifiedName == qn ++ "." ++ m.Name) && msgQNamesOk m && msgsQNOk qn rest
termination_by 2 * sizeOf l
decreasing_by all_goals
  ((try simp only [List.cons.sizeOf_spec, MessageElement.sizeOf_expand]); omega)

end

/-- The qualified names of all types declared strictly inside a message
subtree: its nested messages and enums, at every depth. -/
def typeQNames (msgs : List MessageElement) : List String :=
  match msgs with
  | [] => []
  | m :: rest =>
    m.QualifiedName :: (m.Enums.map fun e => e.QualifiedName) ++
      typeQNames m.Messages ++ typeQNames rest
termination_by sizeOf msgs
decreasing_by all_goals
  ((try simp only [List.cons.sizeOf_spec, MessageElement.sizeOf_expand]); omega)

/-- The document-level qualified-name invariant that claim C1 asserts:
every top-level message, enum and service has `QualifiedName` equal to
some prefix (the one in effect at its declaration site) plus its name, and
every message subtree satisfies `msgQNamesOk`. -/
def InvPf (pf : ProtoFile) : Prop :=
  (∀ m ∈ pf.Messages, (∃ p, m.QualifiedName = p ++ m.Name) ∧ msgQNamesOk m = true) ∧
    (∀ e ∈ pf.Enums, ∃ p, e.QualifiedName = p ++ e.Name) ∧
    (∀ sv ∈ pf.Services, ∃ p, sv.QualifiedName = p ++ sv.Name)

/-- The parsing invariant tying an in-progress context to the current
prefix: a message context's prefix is its qualified name plus a dot, and
its subtree built so far is consistent. -/
def CtxInv : CtxObj → String → Prop
  | .msgObj me, pfx => msgQNamesOk me = true ∧ pfx = me.QualifiedName ++ "."
  | _, _ => True

/-- How one parsing step may change the context: the constructor is
preserved, and a message / enum / service payload keeps its name and
qualified name (only its content lists grow). -/
def ctxShape : CtxObj → CtxObj → Prop
  | .fileObj, .fileObj => True
  | .msgObj a, .msgObj b => b.QualifiedName = a.QualifiedName ∧ b.Name = a.Name
  | .enumObj a, .enumObj b => b.QualifiedName = a.QualifiedName ∧ b.Name = a.Name
  | .serviceObj a, .serviceObj b => b.QualifiedName = a.QualifiedName ∧ b.Name = a.Name
  | .oneOfObj _, .oneOfObj _ => True
  | .rpcObj _, .rpcObj _ => True
  | .extendObj _, .extendObj _ => True
  | _, _ => False

/-- All enums declared inside a message list, at every depth. -/
def allEnumsIn (msgs : List MessageElement) : List EnumElement :=
  match msgs with
  | [] => []
  | m :: rest => m.Enums ++ allEnumsIn m.Messages ++ allEnumsIn rest
termination_by sizeOf msgs
decreasing_by all_goals
  ((try simp only [List.cons.sizeOf_spec, MessageElement.sizeOf_expand]); omega)

/-- The type names of all named-type fields inside a message list, at
every depth (exactly the references `checkImportedPackageUsage` scans). -/
def allFieldTypeNames (msgs : List MessageElement) : List String :=
  match msgs with
  | [] => []
  | m :: rest =>
    (m.Fields.filterMap fun f =>
      if f.Type'.Category = DataTypeCategory.NamedDataTypeCategory then
        some f.Type'.Name
      else none) ++
      allFieldTypeNames m.Messages ++ allFieldTypeNames rest
termination_by sizeOf msgs
decreasing_by all_goals
  ((try simp only [List.cons.sizeOf_spec, MessageElement.sizeOf_expand]); omega)

/-- The request/response type names of all RPCs of all services (exactly
the references `areImportedPackagesUsed` scans first). -/
def allRPCTypeNames (services : List ServiceElement) : List String :=
  services.flatMap fun sv => sv.RPCs.flatMap fun r => [r.RequestType.name, r.ResponseType.name]

/-- "The document references package `pkg`": some named field type or RPC
request/response type is a dot-qualified reference whose package prefix
resolves to `pkg`. -/
def docUsesPackage (pf : ProtoFile) (pkg : String) (packageNames : List String) : Bool :=
  (allFieldTypeNames pf.Messages).any (fun n => usesPackage n pkg packageNames) ||
    (allRPCTypeNames pf.Services).any (fun n => usesPackage n pkg packageNames)

/-- An all-empty `MessageElement`, convenient for concrete instances. -/
def emptyMessage : MessageElement :=
  { Name := "", QualifiedName := "", Documentation := "", Options := [],
    Fields := [], Enums := [], OneOfs := [], Extensions := [],
    ReservedRanges := [], ReservedNames := [], Messages := [],
    ExtendDeclarations := [] }

/-- An all-empty `OneOfElement`. -/
def emptyOneOf : OneOfElement :=
  { Name := "", Documentation := "", Fields := [], Options := [] }

/-- An all-empty `EnumElement`. -/
def emptyEnum : EnumElement :=
  { Name := "", QualifiedName := "", Documentation := "", Options := [],
    EnumConstants := [] }

/-- The initial scanner state over the given characters. -/
def initPState (r : List Char) : PState :=
  { remaining := r, lastReadOk := false, eofReached := false }

/-! ## Theorems -/

/-- C3: the claim says a parsed document with an empty package name must
fail verification (as `parser_test.go` also expects, "No package
specified"); the final `verify` however never inspects `PackageName`, and
accepts a document whose package is empty: `verify` returns nil for a
proto2 file with no package declaration at all. -/
theorem c3_verify_accepts_empty_package :
    ∀ fuel, verify fuel { emptyProtoFile with Syntax := "proto2" } none = .ok () := by
  intro fuel
  simp [verify, validateSyntax, emptyProtoFile, parseDependencies,
    makeQNameLookup, gatherMsgs, lookupOrcl, getDependencyPackageNames,
    areImportedPackagesUsed, areImportedPackagesUsedLoop,
    findFieldsToValidate, validateFieldsLoop, validateServicesLoop,
    validateUniqueMessageEnumNames, uniqueEnumNamesLoop, uniqueMsgNamesLoop,
    uniqueNamesChildrenLoop, validateEnumConstants, validateEnumConstantsLoop,
    enumConstantsMsgsLoop, validateEnumConstantTagAliases, tagAliasesMsgsLoop]

/-- C8: under proto3 syntax an explicit `optional` label is a parse error
whose message contains "proto3", a `required` label is a parse error, and
inside a `oneof` body any of the labels `required`, `optional`, `repeated`
is a parse error (whatever the syntax). -/
theorem c8_label_errors (fuel : Nat) (s : PState) (pf : ProtoFile)
    (doc : String) (ctx : CtxObj) :
    (pf.Syntax = proto3 →
      ∃ e, readField fuel s pf "optional" doc ctx = .err e ∧ strContains e "proto3") ∧
    (pf.Syntax = proto3 →
      readField fuel s pf "required" doc ctx = .err "Required fields are not allowed in proto3") ∧
    (ctx.ctxType = CtxType.oneOfCtx →
      ∀ label, (label = "required" ∨ label = "optional" ∨ label = "repeated") →
        ∃ e, readField fuel s pf label doc ctx = .err e) := by
  refine ⟨?_, ?_, ?_⟩
  · intro h3
    refine ⟨"Explicit 'optional' labels are disallowed in the proto3 syntax. " ++
      "To define 'optional' fields in proto3, simply remove the 'optional' label, as fields " ++
      "are 'optional' by default.", ?_, ?_⟩
    · simp [readField, optionalLbl, h3]
    · refine ⟨"Explicit 'optional' labels are disallowed in the ",
        " syntax. To define 'optional' fields in proto3, simply remove the 'optional' label, as fields are 'optional' by default.", ?_⟩
      simp
  · intro h3
    by_cases hopt : pf.Syntax = proto3
    · simp [readField, optionalLbl, requiredLbl, hopt]
    · exact absurd h3 hopt
  · intro h1 label hl
    have hext : ctx.ctxType ≠ CtxType.extendCtx := by rw [h1]; decide
    rcases hl with h | h | h <;> subst h
    · by_cases h3 : pf.Syntax = proto3
      · exact ⟨"Required fields are not allowed in proto3",
          by simp [readField, optionalLbl, requiredLbl, h3]⟩
      · exact ⟨"Label 'required' is disallowed in oneoff field",
          by simp [readField, optionalLbl, requiredLbl, repeatedLbl, h3, h1, hext]⟩
    · by_cases h3 : pf.Syntax = proto3
      · exact ⟨"Explicit 'optional' labels are disallowed in the proto3 syntax. " ++
          "To define 'optional' fields in proto3, simply remove the 'optional' label, as fields " ++
          "are 'optional' by default.", by simp [readField, optionalLbl, h3]⟩
      · exact ⟨"Label 'optional' is disallowed in oneoff field",
          by simp [readField, optionalLbl, requiredLbl, repeatedLbl, h3, h1]⟩
    · by_cases h3 : pf.Syntax = proto3 <;>
        exact ⟨"Label 'repeated' is disallowed in oneoff field",
          by simp [readField, optionalLbl, requiredLbl, repeatedLbl, h3, h1, hext]⟩

/-- Witness for C8 at a concrete state: a proto3 file with an `optional`
field label, a `required` label, and a `repeated` label inside a oneof. -/
theorem c8_label_errors_witness :
    (∃ e, readField 5 (initPState []) { emptyProtoFile with Syntax := "proto3" }
        "optional" "" (.msgObj emptyMessage) = .err e ∧ strContains e "proto3") ∧
    (∃ e, readField 5 (initPState []) emptyProtoFile "repeated" ""
        (.oneOfObj emptyOneOf) = .err e) := by
  constructor
  · exact (c8_label_errors 5 (initPState []) { emptyProtoFile with Syntax := "proto3" }
      "" (.msgObj emptyMessage)).1 rfl
  · exact (c8_label_errors 5 (initPState []) emptyProtoFile "" (.oneOfObj emptyOneOf)).2.2
      (by decide) "repeated" (Or.inr (Or.inr rfl))

/-- A digit character is not the eof rune, not whitespace, and not a sign. -/
theorem isDigit_facts (c : Char) (h : isDigit c = true) :
    c ≠ eofChar ∧ isWhitespace c = false ∧ c ≠ '-' ∧ c ≠ '+' := by
  simp [isDigit] at h
  obtain ⟨h1, h2⟩ := h
  refine ⟨?_, ?_, ?_, ?_⟩
  · intro hc; subst hc; exact absurd h1 (by decide)
  · simp only [isWhitespace]
    have w1 : c ≠ ' ' := by intro hc; subst hc; exact absurd h1 (by decide)
    have w2 : c ≠ '\t' := by intro hc; subst hc; exact absurd h1 (by decide)
    have w3 : c ≠ '\r' := by intro hc; subst hc; exact absurd h1 (by decide)
    have w4 : c ≠ '\n' := by intro hc; subst hc; exact absurd h1 (by decide)
    simp [w1, w2, w3, w4]
  · intro hc; subst hc; exact absurd h1 (by decide)
  · intro hc; subst hc; exact absurd h1 (by decide)

/-- `readIntGo` consumes exactly a leading digit run. -/
theorem readIntGo_digits (ds r : List Char) (hd : ∀ c ∈ ds, isDigit c = true)
    (hr : r = [] ∨ ∃ c rest, r = c :: rest ∧ isDigit c = false) :
    readIntGo (ds ++ r) = (ds, r) := by
  induction ds with
  | nil =>
    rcases hr with h | ⟨c, rest, rfl, hc⟩
    · subst h; rfl
    · simp [readIntGo, hc]
  | cons d tl ih =>
    have hdd : isDigit d = true := hd d (by simp)
    have ih2 : readIntGo (tl.append r) = (tl, r) := ih (fun c hc => hd c (by simp [hc]))
    simp only [List.cons_append, readIntGo, hdd, if_true]
    rw [ih2]

/-- `goAtoi` on a pure digit numeral in range yields its decimal value. -/
theorem goAtoi_digits (ds : List Char) (hne : ds ≠ [])
    (hd : ∀ c ∈ ds, isDigit c = true)
    (hle : digitsVal ds ≤ 9223372036854775807) :
    goAtoi (String.mk ds) = .ok (digitsVal ds) := by
  rcases ds with _ | ⟨d, tl⟩
  · exact absurd rfl hne
  · have hdd := hd d (by simp)
    obtain ⟨_, _, hm, hp⟩ := isDigit_facts d hdd
    have hall : (d :: tl).all (fun c => isDigit c) = true := by
      simp only [List.all_eq_true]
      exact fun c hc => hd c hc
    simp only [goAtoi]
    split
    · rename_i rest heq
      exact absurd (List.head_eq_of_cons_eq heq) hm
    · rename_i rest heq
      exact absurd (List.head_eq_of_cons_eq heq) hp
    · simp [hall, hle]

/-- `skipWsGo` does not move past a non-whitespace, non-eof character. -/
theorem skipWsGo_nonws (c : Char) (l : List Char) (h1 : c ≠ eofChar)
    (h2 : isWhitespace c = false) : skipWsGo (c :: l) = (c :: l, false, false) := by
  simp [skipWsGo, h1, h2]

/-- C10: inside a message, `extensions S to max;` in a proto2 file yields
an `ExtensionsElement` with `Start` the numeral's value and `End` exactly
536870911; in a proto3 file any `extensions` declaration is the parse
error "Extension ranges are not allowed in proto3". -/
theorem c10_extensions_max :
    (∀ (s : PState) (pf : ProtoFile) (doc : String) (ctx : CtxObj),
      pf.Syntax = proto3 →
        readExtensions s pf doc ctx = .err "Extension ranges are not allowed in proto3") ∧
    (∀ (ds rest : List Char) (pf : ProtoFile) (doc : String) (me : MessageElement),
      pf.Syntax = "proto2" → ds ≠ [] → (∀ c ∈ ds, isDigit c = true) →
      digitsVal ds ≤ 9223372036854775807 →
      readExtensions
          (initPState (ds ++ (' ' :: 't' :: 'o' :: ' ' :: 'm' :: 'a' :: 'x' :: ';' :: rest)))
          pf doc (.msgObj me) =
        .ok ({ remaining := ';' :: rest, lastReadOk := false, eofReached := false },
          .msgObj { me with Extensions := me.Extensions ++
                      [{ Documentation := doc, Start := (digitsVal ds : Int), End := 536870911 }] })) := by
  constructor
  · intro s pf doc ctx h3
    simp [readExtensions, h3]
  · intro ds rest pf doc me h2 hne hd hle
    have h3 : ¬(pf.Syntax = proto3) := by rw [h2]; simp [proto3]
    have hgo : readIntGo (ds ++ (' ' :: 't' :: 'o' :: ' ' :: 'm' :: 'a' :: 'x' :: ';' :: rest)) =
        (ds, ' ' :: 't' :: 'o' :: ' ' :: 'm' :: 'a' :: 'x' :: ';' :: rest) :=
      readIntGo_digits ds _ hd (Or.inr ⟨' ', _, rfl, by decide⟩)
    have hws : skipWhitespace
        (initPState (ds ++ (' ' :: 't' :: 'o' :: ' ' :: 'm' :: 'a' :: 'x' :: ';' :: rest))) =
        initPState (ds ++ (' ' :: 't' :: 'o' :: ' ' :: 'm' :: 'a' :: 'x' :: ';' :: rest)) := by
      rcases ds with _ | ⟨d, tl⟩
      · exact absurd rfl hne
      · obtain ⟨f1, f2, _, _⟩ := isDigit_facts d (hd d (by simp))
        simp [skipWhitespace, initPState, skipWsGo_nonws d _ f1 f2]
    rw [readExtensions, if_neg h3, hws]
    rw [readInt]
    rw [show (initPState (ds ++ (' ' :: 't' :: 'o' :: ' ' :: 'm' :: 'a' :: 'x' :: ';' :: rest))).remaining =
      ds ++ (' ' :: 't' :: 'o' :: ' ' :: 'm' :: 'a' :: 'x' :: ';' :: rest) from rfl]
    rw [hgo]
    simp only [goAtoi_digits ds hne hd hle]
    simp [read, unread, skipWhitespace, skipWsGo, readWord, readWordAdvanced, readWordGo,
      isValidCharInWord, isLetter, isWhitespace, isDigit, eofChar, initPState, String.mk]

/-- Witness for C10: `extensions 5 to max;` in a proto2 message yields
`Start = 5`, `End = 536870911`; the same text under proto3 errors. -/
theorem c10_extensions_max_witness :
    readExtensions (initPState ('5' :: (' ' :: 't' :: 'o' :: ' ' :: 'm' :: 'a' :: 'x' :: ';' :: [])))
        { emptyProtoFile with Syntax := "proto2" } "" (.msgObj emptyMessage) =
      .ok ({ remaining := [';'], lastReadOk := false, eofReached := false },
        .msgObj { emptyMessage with Extensions :=
                    [{ Documentation := "", Start := (5 : Int), End := 536870911 }] }) ∧
    readExtensions (initPState []) { emptyProtoFile with Syntax := "proto3" } ""
        (.msgObj emptyMessage) = .err "Extension ranges are not allowed in proto3" := by
  constructor
  · have h := c10_extensions_max.2 ['5'] [] { emptyProtoFile with Syntax := "proto2" } ""
      emptyMessage rfl (by decide) (by decide) (by decide)
    simpa [emptyMessage, digitsVal, digitVal] using h
  · exact c10_extensions_max.1 (initPState []) { emptyProtoFile with Syntax := "proto3" } ""
      (.msgObj emptyMessage) rfl

/-- The named-field filter of `allFieldTypeNames` matches the per-field
test of `checkImportedPackageUsage`. -/
theorem fields_filterMap_any (fields : List FieldElement) (p : String → Bool) :
    ((fields.filterMap fun f =>
        if f.Type'.Category = DataTypeCategory.NamedDataTypeCategory then
          some f.Type'.Name
        else none).any p) =
      fields.any (fun f =>
        decide (f.Type'.Category = DataTypeCategory.NamedDataTypeCategory) &&
          p f.Type'.Name) := by
  induction fields with
  | nil => rfl
  | cons f rest ih =>
    by_cases hc : f.Type'.Category = DataTypeCategory.NamedDataTypeCategory <;>
      simp [hc, ih]

/-- Size-bounded form of `checkImportedPackageUsage_eq`, for the nested
recursion. -/
theorem checkImportedPackageUsage_eq_aux :
    ∀ (n : Nat) (msgs : List MessageElement), sizeOf msgs < n →
      ∀ (pkg : String) (pkgs : List String),
        checkImportedPackageUsage msgs pkg pkgs =
          (allFieldTypeNames msgs).any (fun m => usesPackage m pkg pkgs) := by
  intro n
  induction n with
  | zero => intro msgs h; exact absurd h (by omega)
  | succ n ih =>
    intro msgs hlt pkg pkgs
    match msgs with
    | [] => simp [checkImportedPackageUsage, allFieldTypeNames]
    | m :: rest =>
      have hsz : sizeOf (m :: rest) = 1 + sizeOf m + sizeOf rest := by
        simp only [List.cons.sizeOf_spec]
      have hmm : sizeOf m.Messages < sizeOf m := by
        rw [MessageElement.sizeOf_expand m]; omega
      have h1 : sizeOf m.Messages < n := by omega
      have h2 : sizeOf rest < n := by omega
      rw [checkImportedPackageUsage, allFieldTypeNames]
      rw [ih m.Messages h1 pkg pkgs, ih rest h2 pkg pkgs]
      simp only [List.any_append, fields_filterMap_any]
      by_cases hf : (m.Fields.any fun f =>
          decide (f.Type'.Category = DataTypeCategory.NamedDataTypeCategory) &&
            usesPackage f.Type'.Name pkg pkgs) = true
      · simp [hf]
      · simp only [hf, if_false, Bool.false_or]
        rcases hm : m.Messages with _ | ⟨x, xs⟩
        · simp [allFieldTypeNames]
        · by_cases hn : (allFieldTypeNames (x :: xs)).any
              (fun m => usesPackage m pkg pkgs) = true
          · simp [hn]
          · simp [hn]

/-- `checkImportedPackageUsage` is exactly "some named field type in the
subtree uses the package". -/
theorem checkImportedPackageUsage_eq (pkg : String) (pkgs : List String)
    (msgs : List MessageElement) :
    checkImportedPackageUsage msgs pkg pkgs =
      (allFieldTypeNames msgs).any (fun m => usesPackage m pkg pkgs) :=
  checkImportedPackageUsage_eq_aux (sizeOf msgs + 1) msgs (by omega) pkg pkgs

/-- `rpcUsesPackage` is exactly "some RPC request/response type name uses
the package". -/
theorem rpcUsesPackage_eq (svs : List ServiceElement) (pkg : String)
    (pkgs : List String) :
    rpcUsesPackage svs pkg pkgs =
      (allRPCTypeNames svs).any (fun n => usesPackage n pkg pkgs) := by
  simp only [rpcUsesPackage, allRPCTypeNames]
  induction svs with
  | nil => rfl
  | cons sv rest ih =>
    simp only [List.any_cons, List.flatMap_cons, List.any_append, ih]
    congr 1
    induction sv.RPCs with
    | nil => rfl
    | cons r rrest ih2 =>
      simp only [List.any_cons, List.flatMap_cons, List.any_append, ih2]
      simp

/-- The per-package loop of `areImportedPackagesUsed`: ok exactly when
every remaining package is used; an error names the first unused one. -/
theorem areImportedPackagesUsedLoop_char (pf : ProtoFile) (all : List String) :
    ∀ l, (areImportedPackagesUsedLoop pf all l = .ok () ↔
        ∀ pkg ∈ l, docUsesPackage pf pkg all = true) ∧
      (∀ e, areImportedPackagesUsedLoop pf all l = .err e →
        ∃ pkg ∈ l, docUsesPackage pf pkg all = false ∧
          e = "Imported package: " ++ pkg ++ " but not used") := by
  intro l
  induction l with
  | nil => exact ⟨by simp [areImportedPackagesUsedLoop], by simp [areImportedPackagesUsedLoop]⟩
  | cons pkg rest ih =>
    have huse : (rpcUsesPackage pf.Services pkg all ||
        checkImportedPackageUsage pf.Messages pkg all) = docUsesPackage pf pkg all := by
      rw [docUsesPackage, rpcUsesPackage_eq, checkImportedPackageUsage_eq pkg all pf.Messages]
      rw [Bool.or_comm]
    constructor
    · by_cases h : docUsesPackage pf pkg all = true
      · rw [areImportedPackagesUsedLoop, huse, if_pos h]
        simp only [List.mem_cons]
        constructor
        · intro hok q hq
          rcases hq with rfl | hq
          · exact h
          · exact (ih.1.mp hok) q hq
        · intro hall
          exact ih.1.mpr (fun q hq => hall q (Or.inr hq))
      · rw [areImportedPackagesUsedLoop, huse, if_neg h]
        simp only [List.mem_cons]
        constructor
        · intro hok; cases hok
        · intro hall; exact absurd (hall pkg (Or.inl rfl)) h
    · intro e he
      by_cases h : docUsesPackage pf pkg all = true
      · rw [areImportedPackagesUsedLoop, huse, if_pos h] at he
        obtain ⟨q, hq, hb, hb2⟩ := ih.2 e he
        exact ⟨q, List.mem_cons_of_mem _ hq, hb, hb2⟩
      · rw [areImportedPackagesUsedLoop, huse, if_neg h] at he
        cases he
        exact ⟨pkg, List.mem_cons_self _ _, by simpa using h, rfl⟩

/-- C4: `areImportedPackagesUsed` (step 11 of `verify`) succeeds exactly
when every dependency package is referenced by some named field type
(recursively through nested messages) or some RPC request/response type
via a dot-qualified name whose package prefix resolves to it; otherwise it
fails with an error naming an unreferenced package and saying "not used". -/
theorem c4_unused_import_detection (pf : ProtoFile) (packageNames : List String) :
    (areImportedPackagesUsed pf packageNames = .ok () ↔
      ∀ pkg ∈ packageNames, docUsesPackage pf pkg packageNames = true) ∧
    (∀ e, areImportedPackagesUsed pf packageNames = .err e →
      ∃ pkg ∈ packageNames, docUsesPackage pf pkg packageNames = false ∧
        e = "Imported package: " ++ pkg ++ " but not used") :=
  areImportedPackagesUsedLoop_char pf packageNames packageNames

/-- Witness for C4: a document with no references at all does not use the
imported package "other", and the check reports exactly that. -/
theorem c4_unused_import_detection_witness :
    ∃ pkg ∈ ["other"], docUsesPackage emptyProtoFile pkg ["other"] = false ∧
      "Imported package: other but not used" =
        "Imported package: " ++ pkg ++ " but not used" := by
  have h : areImportedPackagesUsed emptyProtoFile ["other"] =
      .err "Imported package: other but not used" := by
    simp [areImportedPackagesUsed, areImportedPackagesUsedLoop, rpcUsesPackage,
      checkImportedPackageUsage, emptyProtoFile]
  exact (c4_unused_import_detection emptyProtoFile ["other"]).2 _ h

/-- With `allow_alias = true` the tag loop never fails. -/
theorem enumTagLoop_allow (en : EnumElement) (h : isAllowAlias en = true) :
    ∀ (cs : List EnumConstantElement) (seen : List Int),
      enumTagLoop en seen cs = .ok () := by
  intro cs
  induction cs with
  | nil => intro seen; rfl
  | cons c rest ih => intro seen; simp [enumTagLoop, h, ih]

/-- Without `allow_alias`, the tag loop succeeds exactly when the seen
tags plus the constants' tags are duplicate-free. -/
theorem enumTagLoop_noalias (en : EnumElement) (h : isAllowAlias en = false) :
    ∀ (cs : List EnumConstantElement) (seen : List Int), seen.Nodup →
      (enumTagLoop en seen cs = .ok () ↔
        (seen ++ cs.map (fun c => c.Tag)).Nodup) := by
  intro cs
  induction cs with
  | nil => intro seen hs; simpa [enumTagLoop] using hs
  | cons c rest ih =>
    intro seen hs
    by_cases hc : c.Tag ∈ seen
    · have hcc : seen.contains c.Tag = true := by simpa using hc
      rw [enumTagLoop]
      simp only [hcc, h, Bool.not_false, Bool.and_true, if_true]
      simp only [List.map_cons]
      constructor
      · intro he; cases he
      · intro hn
        rw [List.nodup_append] at hn
        exact absurd (hn.2.2 hc (by simp)) (by simp)
    · have hcc : ¬(seen.contains c.Tag = true) := by simpa using hc
      rw [enumTagLoop]
      have hcond : (seen.contains c.Tag && !isAllowAlias en) = false := by
        simp [hcc, h]
        exact hc
      simp only [hcond, Bool.false_eq_true, if_false]
      have hs2 : (seen ++ [c.Tag]).Nodup := by
        rw [List.nodup_append]
        exact ⟨hs, List.nodup_singleton _, by simpa [List.disjoint_singleton] using hc⟩
      rw [ih (seen ++ [c.Tag]) hs2, List.append_assoc, List.singleton_append,
        List.map_cons]

/-- Any error the tag loop produces is the "reusing an enum value"
message for one of the constants. -/
theorem enumTagLoop_err (en : EnumElement) :
    ∀ (cs : List EnumConstantElement) (seen : List Int) (e : String),
      enumTagLoop en seen cs = .err e →
      ∃ enc ∈ cs, e = enc.Name ++
        " is reusing an enum value. If this is intended, set 'option allow_alias = true;' in the enum" := by
  intro cs
  induction cs with
  | nil => intro seen e he; cases he
  | cons c rest ih =>
    intro seen e he
    rw [enumTagLoop] at he
    by_cases hcond : (seen.contains c.Tag && !isAllowAlias en) = true
    · rw [if_pos hcond] at he
      cases he
      exact ⟨c, by simp, rfl⟩
    · rw [if_neg hcond] at he
      obtain ⟨enc, hm, hc⟩ := ih _ _ he
      exact ⟨enc, by simp [hm], hc⟩

/-- `validateEnumConstantTagAliases` succeeds exactly when every enum in
the list either allows aliases or has pairwise distinct constant tags;
its errors are always "reusing an enum value" messages. -/
theorem validateETA_char (enums : List EnumElement) :
    (validateEnumConstantTagAliases enums = .ok () ↔
      ∀ en ∈ enums, isAllowAlias en = true ∨
        (en.EnumConstants.map (fun c => c.Tag)).Nodup) ∧
    (∀ e, validateEnumConstantTagAliases enums = .err e →
      ∃ enc : EnumConstantElement, e = enc.Name ++
        " is reusing an enum value. If this is intended, set 'option allow_alias = true;' in the enum") := by
  induction enums with
  | nil => exact ⟨by simp [validateEnumConstantTagAliases], fun e he => by cases he⟩
  | cons en rest ih =>
    constructor
    · rw [validateEnumConstantTagAliases]
      by_cases ha : isAllowAlias en = true
      · rw [enumTagLoop_allow en ha]
        simp only [List.mem_cons]
        constructor
        · intro hok q hq
          rcases hq with rfl | hq
          · exact Or.inl ha
          · exact (ih.1.mp hok) q hq
        · intro hall
          exact ih.1.mpr (fun q hq => hall q (Or.inr hq))
      · have ha' : isAllowAlias en = false := by simpa using ha
        have hloop := enumTagLoop_noalias en ha' en.EnumConstants [] (by simp)
        simp only [List.nil_append] at hloop
        by_cases hn : (en.EnumConstants.map (fun c => c.Tag)).Nodup
        · obtain ⟨u, hu⟩ : ∃ u, enumTagLoop en [] en.EnumConstants = .ok u :=
            ⟨(), hloop.mpr hn⟩
          rw [hloop.mpr hn]
          simp only [List.mem_cons]
          constructor
          · intro hok q hq
            rcases hq with rfl | hq
            · exact Or.inr hn
            · exact (ih.1.mp hok) q hq
          · intro hall
            exact ih.1.mpr (fun q hq => hall q (Or.inr hq))
        · have : ¬(enumTagLoop en [] en.EnumConstants = .ok ()) := fun hk => hn (hloop.mp hk)
          rcases hcase : enumTagLoop en [] en.EnumConstants with u | e | _
          · exact absurd (by rw [hcase]) this
          · simp only [List.mem_cons]
            constructor
            · intro hok; cases hok
            · intro hall
              rcases hall en (Or.inl rfl) with h1 | h1
              · exact absurd h1 ha
              · exact absurd h1 hn
          · simp only [List.mem_cons]
            constructor
            · intro hok; cases hok
            · intro hall
              rcases hall en (Or.inl rfl) with h1 | h1
              · exact absurd h1 ha
              · exact absurd h1 hn
    · intro e he
      rw [validateEnumConstantTagAliases] at he
      rcases hcase : enumTagLoop en [] en.EnumConstants with u | e1 | _ <;> rw [hcase] at he
      · exact ih.2 e he
      · cases he
        obtain ⟨enc, _, hc⟩ := enumTagLoop_err en en.EnumConstants [] _ hcase
        exact ⟨enc, hc⟩
      · cases he

/-- Size-bounded characterisation of the nested tag-alias validation: it
succeeds exactly when every enum at every depth allows aliases or has
duplicate-free tags, and its errors are "reusing an enum value" messages. -/
theorem tagAliasesInMessage_aux :
    ∀ n : Nat,
      (∀ msg : MessageElement, sizeOf msg < n →
        (validateEnumConstantTagAliasesInMessage msg = .ok () ↔
          ∀ en ∈ msg.Enums ++ allEnumsIn msg.Messages,
            isAllowAlias en = true ∨ (en.EnumConstants.map (fun c => c.Tag)).Nodup) ∧
        (∀ e, validateEnumConstantTagAliasesInMessage msg = .err e →
          ∃ enc : EnumConstantElement, e = enc.Name ++
            " is reusing an enum value. If this is intended, set 'option allow_alias = true;' in the enum")) ∧
      (∀ msgs : List MessageElement, sizeOf msgs < n →
        (tagAliasesChildrenLoop msgs = .ok () ↔
          ∀ en ∈ allEnumsIn msgs,
            isAllowAlias en = true ∨ (en.EnumConstants.map (fun c => c.Tag)).Nodup) ∧
        (∀ e, tagAliasesChildrenLoop msgs = .err e →
          ∃ enc : EnumConstantElement, e = enc.Name ++
            " is reusing an enum value. If this is intended, set 'option allow_alias = true;' in the enum")) := by
  intro n
  induction n with
  | zero =>
    exact ⟨fun msg h => absurd h (by omega), fun msgs h => absurd h (by omega)⟩
  | succ n ih =>
    constructor
    · intro msg hlt
      have hmm : sizeOf msg.Messages < n := by
        have := MessageElement.sizeOf_expand msg; omega
      have ihl := ih.2 msg.Messages hmm
      constructor
      · rw [validateEnumConstantTagAliasesInMessage]
        rcases hcase : validateEnumConstantTagAliases msg.Enums with u | e | _
        · cases u
          rw [ihl.1]
          have h1 := (validateETA_char msg.Enums).1
          rw [hcase] at h1
          simp only [List.mem_append]
          constructor
          · intro hall en hen
            rcases hen with hen | hen
            · exact h1.mp rfl en hen
            · exact hall en hen
          · intro hall en hen
            exact hall en (Or.inr hen)
        · constructor
          · intro hk; cases hk
          · intro hall
            have h1 := (validateETA_char msg.Enums).1
            rw [hcase] at h1
            have : validateEnumConstantTagAliases msg.Enums = .ok () :=
              (validateETA_char msg.Enums).1.mpr
                (fun en hen => hall en (List.mem_append.mpr (Or.inl hen)))
            rw [hcase] at this
            cases this
        · constructor
          · intro hk; cases hk
          · intro hall
            have : validateEnumConstantTagAliases msg.Enums = .ok () :=
              (validateETA_char msg.Enums).1.mpr
                (fun en hen => hall en (List.mem_append.mpr (Or.inl hen)))
            rw [hcase] at this
            cases this
      · intro e he
        rw [validateEnumConstantTagAliasesInMessage] at he
        rcases hcase : validateEnumConstantTagAliases msg.Enums with u | e1 | _ <;>
          rw [hcase] at he
        · exact ihl.2 e he
        · cases he
          exact (validateETA_char msg.Enums).2 _ hcase
        · cases he
    · intro msgs hlt
      match msgs with
      | [] =>
        constructor
        · simp [tagAliasesChildrenLoop, allEnumsIn]
        · intro e he
          rw [tagAliasesChildrenLoop] at he
          cases he
      | m :: rest =>
        have hszc : sizeOf (m :: rest) = 1 + sizeOf m + sizeOf rest := by
          simp only [List.cons.sizeOf_spec]
        have h1 : sizeOf m < n := by omega
        have h2 : sizeOf rest < n := by omega
        have ihm := ih.1 m h1
        have ihr := ih.2 rest h2
        constructor
        · rw [tagAliasesChildrenLoop, allEnumsIn]
          rcases hcase : validateEnumConstantTagAliasesInMessage m with u | e | _
          · cases u
            rw [ihr.1]
            have hm1 := ihm.1
            rw [hcase] at hm1
            simp only [List.mem_append]
            constructor
            · intro hall en hen
              rcases hen with (hen | hen) | hen
              · exact hm1.mp rfl en (List.mem_append.mpr (Or.inl hen))
              · exact hm1.mp rfl en (List.mem_append.mpr (Or.inr hen))
              · exact hall en hen
            · intro hall en hen
              exact hall en (Or.inr hen)
          · constructor
            · intro hk; cases hk
            · intro hall
              have : validateEnumConstantTagAliasesInMessage m = .ok () :=
                ihm.1.mpr (fun en hen => by
                  rcases List.mem_append.mp hen with hen | hen
                  · exact hall en (by simp [List.mem_append, hen])
                  · exact hall en (by simp [List.mem_append, hen]))
              rw [hcase] at this
              cases this
          · constructor
            · intro hk; cases hk
            · intro hall
              have : validateEnumConstantTagAliasesInMessage m = .ok () :=
                ihm.1.mpr (fun en hen => by
                  rcases List.mem_append.mp hen with hen | hen
                  · exact hall en (by simp [List.mem_append, hen])
                  · exact hall en (by simp [List.mem_append, hen]))
              rw [hcase] at this
              cases this
        · intro e he
          rw [tagAliasesChildrenLoop] at he
          rcases hcase : validateEnumConstantTagAliasesInMessage m with u | e1 | _ <;>
            rw [hcase] at he
          · exact ihr.2 e he
          · cases he
            exact ihm.2 _ hcase
          · cases he

/-- The per-message loop of `verify` for tag aliases, characterised over
all nested enums. -/
theorem tagAliasesMsgsLoop_char (msgs : List MessageElement) :
    (tagAliasesMsgsLoop msgs = .ok () ↔
      ∀ en ∈ allEnumsIn msgs,
        isAllowAlias en = true ∨ (en.EnumConstants.map (fun c => c.Tag)).Nodup) ∧
    (∀ e, tagAliasesMsgsLoop msgs = .err e →
      ∃ enc : EnumConstantElement, e = enc.Name ++
        " is reusing an enum value. If this is intended, set 'option allow_alias = true;' in the enum") := by
  induction msgs with
  | nil =>
    constructor
    · simp [tagAliasesMsgsLoop, allEnumsIn]
    · intro e he; cases he
  | cons m rest ih =>
    have ihm := (tagAliasesInMessage_aux (sizeOf m + 1)).1 m (by omega)
    constructor
    · rw [tagAliasesMsgsLoop, allEnumsIn]
      rcases hcase : validateEnumConstantTagAliasesInMessage m with u | e | _
      · cases u
        rw [ih.1]
        have hm1 := ihm.1
        rw [hcase] at hm1
        simp only [List.mem_append]
        constructor
        · intro hall en hen
          rcases hen with (hen | hen) | hen
          · exact hm1.mp rfl en (List.mem_append.mpr (Or.inl hen))
          · exact hm1.mp rfl en (List.mem_append.mpr (Or.inr hen))
          · exact hall en hen
        · intro hall en hen
          exact hall en (Or.inr hen)
      · constructor
        · intro hk; cases hk
        · intro hall
          have : validateEnumConstantTagAliasesInMessage m = .ok () :=
            ihm.1.mpr (fun en hen => by
              rcases List.mem_append.mp hen with hen | hen
              · exact hall en (by simp [List.mem_append, hen])
              · exact hall en (by simp [List.mem_append, hen]))
          rw [hcase] at this
          cases this
      · constructor
        · intro hk; cases hk
        · intro hall
          have : validateEnumConstantTagAliasesInMessage m = .ok () :=
            ihm.1.mpr (fun en hen => by
              rcases List.mem_append.mp hen with hen | hen
              · exact hall en (by simp [List.mem_append, hen])
              · exact hall en (by simp [List.mem_append, hen]))
          rw [hcase] at this
          cases this
    · intro e he
      rw [tagAliasesMsgsLoop] at he
      rcases hcase : validateEnumConstantTagAliasesInMessage m with u | e1 | _ <;>
        rw [hcase] at he
      · exact ih.2 e he
      · cases he
        exact ihm.2 _ hcase
      · cases he

/-- C5: the enum-tag-alias validation of `verify` (steps over `pf.Enums`
and, recursively, every enum nested in messages at any depth) succeeds
exactly when each such enum either carries `allow_alias = true` among its
options or has pairwise distinct constant tags; every failure is a
"reusing an enum value" error. -/
theorem c5_enum_tag_aliases (pf : ProtoFile) :
    ((validateEnumConstantTagAliases pf.Enums = .ok () ∧
        tagAliasesMsgsLoop pf.Messages = .ok ()) ↔
      ∀ en ∈ pf.Enums ++ allEnumsIn pf.Messages,
        isAllowAlias en = true ∨ (en.EnumConstants.map (fun c => c.Tag)).Nodup) ∧
    (∀ e, (validateEnumConstantTagAliases pf.Enums = .err e ∨
        tagAliasesMsgsLoop pf.Messages = .err e) →
      strContains e "reusing an enum value") := by
  constructor
  · rw [(validateETA_char pf.Enums).1, (tagAliasesMsgsLoop_char pf.Messages).1]
    simp only [List.mem_append]
    constructor
    · rintro ⟨h1, h2⟩ en hen
      rcases hen with hen | hen
      · exact h1 en hen
      · exact h2 en hen
    · intro hall
      exact ⟨fun en hen => hall en (Or.inl hen), fun en hen => hall en (Or.inr hen)⟩
  · intro e he
    have hmsg : ∃ enc : EnumConstantElement, e = enc.Name ++
        " is reusing an enum value. If this is intended, set 'option allow_alias = true;' in the enum" := by
      rcases he with he | he
      · exact (validateETA_char pf.Enums).2 e he
      · exact (tagAliasesMsgsLoop_char pf.Messages).2 e he
    obtain ⟨enc, rfl⟩ := hmsg
    refine ⟨enc.Name ++ " is ",
      ". If this is intended, set 'option allow_alias = true;' in the enum", ?_⟩
    rw [String.append_assoc, String.append_assoc]
    congr 1

/-- Witness for C5: an enum with two constants tagged 1 and no
`allow_alias` makes the check fail with a "reusing an enum value" error,
and the content characterisation applies to it. -/
theorem c5_enum_tag_aliases_witness :
    strContains
      "B is reusing an enum value. If this is intended, set 'option allow_alias = true;' in the enum"
      "reusing an enum value" := by
  have h : validateEnumConstantTagAliases
      [{ emptyEnum with Name := "E", EnumConstants :=
          [{ Name := "A", Tag := 1, Documentation := "", Options := [] },
           { Name := "B", Tag := 1, Documentation := "", Options := [] }] }] =
      .err "B is reusing an enum value. If this is intended, set 'option allow_alias = true;' in the enum" := by
    simp [validateEnumConstantTagAliases, enumTagLoop, isAllowAlias, emptyEnum]
  exact (c5_enum_tag_aliases
    { emptyProtoFile with Enums :=
        [{ emptyEnum with Name := "E", EnumConstants :=
            [{ Name := "A", Tag := 1, Documentation := "", Options := [] },
             { Name := "B", Tag := 1, Documentation := "", Options := [] }] }] }).2 _
    (Or.inl h)

/-- Erase every enum lookup table from an oracle map, keeping everything
else; used to show RPC type resolution never consults enums. -/
def eraseEnummaps (m : OracleMap) : OracleMap :=
  m.map (fun p => (p.1, { p.2 with enummap := [] }))

/-- `getOrcl` after erasing enum tables keeps the message table. -/
theorem getOrcl_eraseEnummaps_msgmap (m : OracleMap) (k : String) :
    (getOrcl (eraseEnummaps m) k).msgmap = (getOrcl m k).msgmap := by
  unfold getOrcl lookupOrcl eraseEnummaps
  rw [List.find?_map]
  have : ((fun p : String × ProtoFileOracle => p.1 == k) ∘
      (fun p : String × ProtoFileOracle => (p.1, { p.2 with enummap := [] }))) =
      (fun p : String × ProtoFileOracle => p.1 == k) := by
    funext p; rfl
  rw [this]
  cases List.find? (fun p : String × ProtoFileOracle => p.1 == k) m with
  | none => rfl
  | some p => rfl

/-- C6: RPC request/response type resolution is message-only: the result of
`validateRPCDataType` is unchanged when every enum table of the oracle map
is erased, success is exactly a message-table (dotted) or `checkMsgName`
(undotted) hit, and every failure names the datatype, the RPC and the
service.  However, the claim that the package-prefix resolution is the same
as for fields is false: for a dotted name already qualified with the main
package, field resolution looks it up as-is while RPC resolution prepends
the main package again — the last conjunct exhibits a name that a field
resolves but an RPC does not. -/
theorem c6_rpc_type_resolution :
    (∀ (mainpkg service rpc : String) (dt : NamedDataType)
        (msgs : List MessageElement) (m : OracleMap) (pkgs : List String),
      validateRPCDataType mainpkg service rpc dt msgs m pkgs =
        validateRPCDataType mainpkg service rpc dt msgs (eraseEnummaps m) pkgs ∧
      (validateRPCDataType mainpkg service rpc dt msgs m pkgs = .ok () ↔
        (if strContainsChar dt.name '.' then
          (if (isDatatypeInSamePackage dt.name pkgs).1 then
            (getOrcl m mainpkg).msgmap.contains (mainpkg ++ "." ++ dt.name)
          else
            (getOrcl m (isDatatypeInSamePackage dt.name pkgs).2).msgmap.contains
              dt.name)
        else checkMsgName dt.name msgs) = true) ∧
      (∀ e, validateRPCDataType mainpkg service rpc dt msgs m pkgs = .err e →
        e = "Datatype: '" ++ dt.name ++ "' referenced in RPC: '" ++ rpc ++
          "' of Service: '" ++ service ++
          "' is not defined OR is not a message type")) ∧
    (validateFieldDataTypes "pkg"
        { name := "f", category := "pkg.M", msg := emptyMessage } [] []
        [("pkg", { pf := emptyProtoFile, msgmap := ["pkg.M"], enummap := [] })]
        [] = .ok () ∧
      validateRPCDataType "pkg" "S" "R"
        { supportsStreaming := false, name := "pkg.M" } []
        [("pkg", { pf := emptyProtoFile, msgmap := ["pkg.M"], enummap := [] })]
        [] =
        .err "Datatype: 'pkg.M' referenced in RPC: 'R' of Service: 'S' is not defined OR is not a message type") := by
  refine ⟨?_, by decide⟩
  intro mainpkg service rpc dt msgs m pkgs
  refine ⟨?_, ?_, ?_⟩
  · unfold validateRPCDataType
    simp only [getOrcl_eraseEnummaps_msgmap]
  · unfold validateRPCDataType
    rcases hdot : strContainsChar dt.name '.' with _ | _
    · simp only [hdot, Bool.false_eq_true, if_false]
      rcases hc : checkMsgName dt.name msgs with _ | _ <;> simp [hc]
    · simp only [hdot, if_true]
      rcases hsp : isDatatypeInSamePackage dt.name pkgs with ⟨b, pkgName⟩
      rcases b with _ | _
      · simp only [Bool.false_eq_true, if_false]
        rcases hc : (getOrcl m pkgName).msgmap.contains dt.name with _ | _ <;>
          simp [hc]
      · simp only [if_true]
        rcases hc : (getOrcl m mainpkg).msgmap.contains
            (mainpkg ++ "." ++ dt.name) with _ | _ <;> simp [hc]
  · intro e he
    unfold validateRPCDataType at he
    rcases hdot : strContainsChar dt.name '.' with _ | _ <;>
      simp only [hdot, Bool.false_eq_true, if_false, if_true] at he
    · rcases hc : checkMsgName dt.name msgs with _ | _ <;>
        simp only [hc, Bool.not_false, Bool.not_true, Bool.false_eq_true,
          if_false, if_true] at he
      · injection he with h
        exact h.symm
      · cases he
    · rcases hsp : isDatatypeInSamePackage dt.name pkgs with ⟨b, pkgName⟩
      rw [hsp] at he
      rcases b with _ | _ <;>
        simp only [Bool.false_eq_true, if_false, if_true] at he
      · rcases hc : (getOrcl m pkgName).msgmap.contains dt.name with _ | _ <;>
          simp only [hc, Bool.not_false, Bool.not_true, Bool.false_eq_true,
            if_false, if_true] at he
        · injection he with h
          exact h.symm
        · cases he
      · rcases hc : (getOrcl m mainpkg).msgmap.contains
            (mainpkg ++ "." ++ dt.name) with _ | _ <;>
          simp only [hc, Bool.not_false, Bool.not_true, Bool.false_eq_true,
            if_false, if_true] at he
        · injection he with h
          exact h.symm
        · cases he

/-- Counterexample for C6: with main package `pkg` and a message whose
qualified name `pkg.M` is in the message table, a field referencing
`pkg.M` resolves but an RPC referencing the same `pkg.M` fails, because
the RPC lookup prepends the main package again. -/
theorem c6_rpc_type_resolution_counterexample :
    validateFieldDataTypes "pkg"
        { name := "f", category := "pkg.M", msg := emptyMessage } [] []
        [("pkg", { pf := emptyProtoFile, msgmap := ["pkg.M"], enummap := [] })]
        [] = .ok () ∧
      validateRPCDataType "pkg" "S" "R"
        { supportsStreaming := false, name := "pkg.M" } []
        [("pkg", { pf := emptyProtoFile, msgmap := ["pkg.M"], enummap := [] })]
        [] =
        .err "Datatype: 'pkg.M' referenced in RPC: 'R' of Service: 'S' is not defined OR is not a message type" := by
  decide

/-- Witness for C6: instantiating the error-naming part at a concrete
enum-only situation — an enum named `E` exists in the enum table but an RPC
referencing `E` still fails, and the error is exactly the message built from
the datatype, RPC and service names. -/
theorem c6_rpc_type_resolution_witness :
    "Datatype: 'E' referenced in RPC: 'R' of Service: 'S' is not defined OR is not a message type" =
      "Datatype: '" ++ "E" ++ "' referenced in RPC: '" ++ "R" ++
        "' of Service: '" ++ "S" ++
        "' is not defined OR is not a message type" :=
  (c6_rpc_type_resolution.1 "pkg" "S" "R"
    { supportsStreaming := false, name := "E" } []
    [("pkg", { pf := emptyProtoFile, msgmap := [], enummap := ["pkg.E"] })]
    []).2.2
    "Datatype: 'E' referenced in RPC: 'R' of Service: 'S' is not defined OR is not a message type"
    (by simp [validateRPCDataType, checkMsgName, strContainsChar])

/-- C7: for a field whose named type reference contains no dot, the verifier
resolves it by the local scope of the enclosing message (its own nested
messages and enums, via `checkMsgOrEnumName`) or, failing that, the
top-level package messages and enums; when neither lookup succeeds, it fails
with an error containing the datatype name and the field name. -/
theorem c7_field_no_dot_resolution (mainpkg : String) (f : Fd)
    (msgs : List MessageElement) (enums : List EnumElement) (m : OracleMap)
    (pkgs : List String) (h : strContainsChar f.category '.' = false) :
    (validateFieldDataTypes mainpkg f msgs enums m pkgs = .ok () ↔
      (checkMsgOrEnumName f.category f.msg.Messages f.msg.Enums ||
        checkMsgOrEnumName f.category msgs enums) = true) ∧
    (∀ e, validateFieldDataTypes mainpkg f msgs enums m pkgs = .err e →
      e = "Datatype: '" ++ f.category ++ "' referenced in field: '" ++
        f.name ++ "' is not defined" ∧
      strContains e f.category ∧ strContains e f.name) := by
  constructor
  · unfold validateFieldDataTypes
    simp only [h, Bool.false_eq_true, if_false]
    rcases hc : (checkMsgOrEnumName f.category f.msg.Messages f.msg.Enums ||
        checkMsgOrEnumName f.category msgs enums) with _ | _ <;>
      simp [hc]
  · intro e he
    unfold validateFieldDataTypes at he
    simp only [h, Bool.false_eq_true, if_false] at he
    rcases hc : (checkMsgOrEnumName f.category f.msg.Messages f.msg.Enums ||
        checkMsgOrEnumName f.category msgs enums) with _ | _ <;>
      rw [hc] at he <;>
      simp only [Bool.not_false, Bool.not_true, Bool.false_eq_true,
        if_false, if_true] at he
    · injection he with h1
      refine ⟨h1.symm, ?_, ?_⟩
      · exact ⟨"Datatype: '",
          "' referenced in field: '" ++ f.name ++ "' is not defined", by
            rw [h1.symm] <;> simp [String.append_assoc]⟩
      · exact ⟨"Datatype: '" ++ f.category ++ "' referenced in field: '",
          "' is not defined", by
            rw [h1.symm] <;> simp [String.append_assoc]⟩
    · cases he

/-- Witness for C7: a field of type `T` declared inside a message that has a
nested message named `T` resolves even though no top-level type is named
`T`, exhibiting the local-scope lookup. -/
theorem c7_field_no_dot_resolution_witness :
    validateFieldDataTypes "pkg"
      { name := "f", category := "T",
        msg := { emptyMessage with Messages := [{ emptyMessage with Name := "T" }] } }
      [] [] [] [] = .ok () :=
  (c7_field_no_dot_resolution "pkg"
    { name := "f", category := "T",
      msg := { emptyMessage with Messages := [{ emptyMessage with Name := "T" }] } }
    [] [] [] [] (by decide)).1.mpr
    (by simp [checkMsgOrEnumName, checkMsgName, emptyMessage])

/-- A parsed map datatype can only come from the word `map`: for any other
word `readDataTypeInternal` returns a scalar or a named type. -/
theorem readDataTypeInternal_map_name :
    ∀ (fuel : Nat) (s : PState) (name : String) (k v : DataType) (s2 : PState),
      readDataTypeInternal fuel s name = .ok (.mapDT k v, s2) →
      name = "map" := by
  intro fuel s name k v s2 h
  match fuel with
  | 0 =>
    rw [readDataTypeInternal] at h
    cases h
  | n + 1 =>
    rw [readDataTypeInternal] at h
    by_cases hn : name = "map"
    · exact hn
    · rw [if_neg hn] at h
      split at h
      · rename_i sdt heq
        unfold NewScalarDataType at heq
        dsimp only at heq
        split at heq
        · simp only [PResult.ok.injEq] at heq
          subst heq
          simp at h
        · cases heq
      · simp at h

/-- C9: every way of declaring a map-typed field that the claim forbids is
a parse error in `readField`, with no side conditions beyond the datatype
parsing as a map: a `required`/`optional`/`repeated` label on a map field
(any syntax, any context), a map field inside a `oneof` or an `extend`
block, and a map key that is `float`/`double`/`bytes` or a named
(message/enum) type (any context). -/
theorem c9_map_field_restrictions :
    (∀ (fuel : Nat) (s s2 : PState) (pf : ProtoFile) (label doc : String)
        (ctx : CtxObj) (k v : DataType),
      (label = requiredLbl ∨ label = optionalLbl ∨ label = repeatedLbl) →
      readDataTypeInternal fuel (readWord (skipWhitespace s)).2
          (readWord (skipWhitespace s)).1 = .ok (.mapDT k v, s2) →
      ∃ e, readField fuel s pf label doc ctx = .err e) ∧
    (∀ (fuel : Nat) (s s2 : PState) (pf : ProtoFile) (dtword doc : String)
        (oe : OneOfElement) (k v : DataType),
      readDataTypeInternal fuel s dtword = .ok (.mapDT k v, s2) →
      readField fuel s pf dtword doc (.oneOfObj oe) =
        .err "Map fields are not allowed in oneofs") ∧
    (∀ (fuel : Nat) (s s2 : PState) (pf : ProtoFile) (dtword doc : String)
        (xe : ExtendElement) (k v : DataType),
      readDataTypeInternal fuel s dtword = .ok (.mapDT k v, s2) →
      readField fuel s pf dtword doc (.extendObj xe) =
        .err "Map fields are not allowed to be extensions") ∧
    (∀ (fuel : Nat) (s s2 : PState) (pf : ProtoFile) (dtword doc : String)
        (ctx : CtxObj) (k v : DataType),
      readDataTypeInternal fuel s dtword = .ok (.mapDT k v, s2) →
      (k.Name = "float" ∨ k.Name = "double" ∨ k.Name = "bytes" ∨
        k.Category = DataTypeCategory.NamedDataTypeCategory) →
      ∃ e, readField fuel s pf dtword doc ctx = .err e) := by
  refine ⟨?_, ?_, ?_, ?_⟩
  · intro fuel s s2 pf label doc ctx k v hlab hdt
    rcases hlab with rfl | rfl | rfl
    · by_cases hp3 : pf.Syntax = proto3
      · refine ⟨"Required fields are not allowed in proto3", ?_⟩
        simp [readField, hp3, requiredLbl, optionalLbl, proto3]
      · simp only [proto3] at hp3
        by_cases hx : ctx.ctxType = CtxType.extendCtx
        · refine ⟨"Message extensions cannot have required fields", ?_⟩
          simp [readField, hp3, hx, requiredLbl, optionalLbl, proto3]
        · by_cases ho : ctx.ctxType = CtxType.oneOfCtx
          · refine ⟨"Label 'required' is disallowed in oneoff field", ?_⟩
            simp [readField, hp3, hx, ho, requiredLbl, optionalLbl,
              repeatedLbl, proto3]
          · refine ⟨"Label required is not allowed on map fields", ?_⟩
            simp [readField, hp3, hx, ho, hdt, requiredLbl, optionalLbl,
              repeatedLbl, proto3, DataType.Category]
    · by_cases hp3 : pf.Syntax = proto3
      · refine ⟨"Explicit 'optional' labels are disallowed in the proto3 syntax. To define 'optional' fields in proto3, simply remove the 'optional' label, as fields are 'optional' by default.", ?_⟩
        simp [readField, hp3, requiredLbl, optionalLbl, proto3]
      · simp only [proto3] at hp3
        by_cases ho : ctx.ctxType = CtxType.oneOfCtx
        · refine ⟨"Label 'optional' is disallowed in oneoff field", ?_⟩
          simp [readField, hp3, ho, requiredLbl, optionalLbl, repeatedLbl,
            proto3]
        · refine ⟨"Label optional is not allowed on map fields", ?_⟩
          simp [readField, hp3, ho, hdt, requiredLbl, optionalLbl,
            repeatedLbl, proto3, DataType.Category]
    · by_cases ho : ctx.ctxType = CtxType.oneOfCtx
      · refine ⟨"Label 'repeated' is disallowed in oneoff field", ?_⟩
        simp [readField, ho, requiredLbl, optionalLbl, repeatedLbl, proto3]
      · refine ⟨"Label repeated is not allowed on map fields", ?_⟩
        simp [readField, ho, hdt, requiredLbl, optionalLbl, repeatedLbl,
          proto3, DataType.Category]
  · intro fuel s s2 pf dtword doc oe k v hdt
    have hmap := readDataTypeInternal_map_name fuel s dtword k v s2 hdt
    subst hmap
    simp [readField, hdt, CtxObj.ctxType, DataType.Category, optionalLbl,
      requiredLbl, repeatedLbl, proto3]
  · intro fuel s s2 pf dtword doc xe k v hdt
    have hmap := readDataTypeInternal_map_name fuel s dtword k v s2 hdt
    subst hmap
    simp [readField, hdt, CtxObj.ctxType, DataType.Category, optionalLbl,
      requiredLbl, repeatedLbl, proto3]
  · intro fuel s s2 pf dtword doc ctx k v hdt hk
    have hmap := readDataTypeInternal_map_name fuel s dtword k v s2 hdt
    subst hmap
    by_cases ho : ctx.ctxType = CtxType.oneOfCtx
    · refine ⟨"Map fields are not allowed in oneofs", ?_⟩
      simp [readField, hdt, ho, DataType.Category, optionalLbl, requiredLbl,
        repeatedLbl, proto3]
    · by_cases hx : ctx.ctxType = CtxType.extendCtx
      · refine ⟨"Map fields are not allowed to be extensions", ?_⟩
        simp [readField, hdt, ho, hx, DataType.Category, optionalLbl,
          requiredLbl, repeatedLbl, proto3]
      · rcases hk with hk | hk | hk
        · refine ⟨"Key in map fields cannot be float, double or bytes", ?_⟩
          simp [readField, hdt, ho, hx, hk, DataType.Category, optionalLbl,
            requiredLbl, repeatedLbl, proto3]
        · refine ⟨"Key in map fields cannot be float, double or bytes", ?_⟩
          simp [readField, hdt, ho, hx, hk, DataType.Category, optionalLbl,
            requiredLbl, repeatedLbl, proto3]
        · rcases hk with hk | hk
          · refine ⟨"Key in map fields cannot be float, double or bytes", ?_⟩
            simp [readField, hdt, ho, hx, hk, DataType.Category, optionalLbl,
              requiredLbl, repeatedLbl, proto3]
          · by_cases hf : k.Name = "float"
            · refine ⟨"Key in map fields cannot be float, double or bytes", ?_⟩
              simp [readField, hdt, ho, hx, hf, DataType.Category,
                optionalLbl, requiredLbl, repeatedLbl, proto3]
            · by_cases hd2 : k.Name = "double"
              · refine
                  ⟨"Key in map fields cannot be float, double or bytes", ?_⟩
                simp [readField, hdt, ho, hx, hd2, DataType.Category,
                  optionalLbl, requiredLbl, repeatedLbl, proto3]
              · by_cases hb : k.Name = "bytes"
                · refine
                    ⟨"Key in map fields cannot be float, double or bytes", ?_⟩
                  simp [readField, hdt, ho, hx, hb, DataType.Category,
                    optionalLbl, requiredLbl, repeatedLbl, proto3]
                · cases k with
                  | scalar st n => simp [DataType.Category] at hk
                  | mapDT a b => simp [DataType.Category] at hk
                  | named ndt =>
                    simp only [DataType.Name] at hf hd2 hb
                    refine ⟨"Key in map fields cannot be a named type", ?_⟩
                    simp [readField, hdt, ho, hx, hf, hd2, hb,
                      DataType.Category, DataType.Name, optionalLbl,
                      requiredLbl, repeatedLbl, proto3]

/-- Witness for C9: `repeated map<string, int32> m = 1;` in a message of a
proto3 file — the labeled map field is rejected. -/
theorem c9_map_field_restrictions_witness :
    ∃ e, readField 3
      { remaining := "map<string, int32> m = 1;".data, lastReadOk := false,
        eofReached := false }
      { emptyProtoFile with Syntax := "proto3" } "repeated" ""
      (.msgObj emptyMessage) = .err e := by
  apply c9_map_field_restrictions.1 3
    { remaining := "map<string, int32> m = 1;".data, lastReadOk := false,
      eofReached := false }
    { remaining := " m = 1;".data, lastReadOk := true, eofReached := false }
    { emptyProtoFile with Syntax := "proto3" } "repeated" ""
    (.msgObj emptyMessage)
    (.scalar .StringScalar "string") (.scalar .Int32Scalar "int32")
    (Or.inr (Or.inr rfl))
  simp +decide [readDataTypeInternal, readDataType, readWord, readWordAdvanced,
    readWordGo, read, unread, skipWhitespace, skipWsGo, isWhitespace, isLetter,
    isDigit, isValidCharInWord, NewScalarDataType, strToLower, scalarLookupMap]

/-- The scanner state holding the single unconsumed character `#`. -/
def hashState : PState :=
  { remaining := ['#'], lastReadOk := false, eofReached := false }

/-- Looking for documentation at a `#` consumes nothing: the `#` is pushed
back and the state returns exactly to where it started. -/
theorem readDocumentationIfFound_hash (m : Nat) :
    readDocumentationIfFound (m + 1) hashState = .ok ("", hashState) := by
  simp +decide [readDocumentationIfFound, read, unread, isWhitespace,
    isStartOfComment, eofChar, hashState]

/-- A declaration read at a `#` consumes nothing either: the word reader
returns the empty word with the `#` pushed back, no keyword matches, the
empty label hits the final accepting branch, and the state returns exactly
to where it started. -/
theorem readDeclaration_hash (m : Nat) (pfx : String) (pf : ProtoFile) :
    readDeclaration (m + 1) hashState pfx pf "" .fileObj =
      .ok (hashState, pfx, pf, .fileObj) := by
  simp +decide [readDeclaration, read, unread, readWord, readWordAdvanced,
    readWordGo, isValidCharInWord, isLetter, isDigit, CtxObj.ctxType,
    CtxType.permitsPackage, CtxType.permitsSyntax, CtxType.permitsImport,
    CtxType.permitsOption, CtxType.permitsMsg, CtxType.permitsEnum,
    CtxType.permitsExtend, CtxType.permitsRPC, CtxType.permitsOneOf,
    CtxType.permitsExtensions, CtxType.permitsReserved, CtxType.permitsField,
    hashState]

/-- The top-level parse loop makes no progress on a lone `#`: every
iteration returns to the identical scanner state, so every fuel bound is
exhausted. -/
theorem parseLoop_hash_diverge :
    ∀ (n : Nat) (pfx : String) (pf : ProtoFile),
      parseLoop n hashState pfx pf = .diverge := by
  intro n
  induction n with
  | zero => intro pfx pf; rfl
  | succ n ih =>
    intro pfx pf
    rw [parseLoop]
    match n with
    | 0 => rfl
    | m + 1 =>
      rw [readDocumentationIfFound_hash]
      have hskip : skipWhitespace hashState = hashState := by decide
      have heof : hashState.eofReached = false := by decide
      simp only [heof, Bool.false_eq_true, if_false, hskip,
        readDeclaration_hash, ih]

/-- C2: the claim that `parse` terminates on every finite input is false:
on the one-character input `#` the top-level loop spins forever (the word
reader consumes nothing, `readDeclaration` accepts the empty label without
consuming, and the loop re-enters with the identical state), so the run
diverges at every fuel bound.  In the Go program this is an infinite loop
inside `Parse`. -/
theorem c2_parse_nontermination :
    ∀ fuel : Nat, runParse fuel "#" = .diverge := by
  intro fuel
  have h : ("#" : String).data = ['#'] := rfl
  unfold runParse parse
  rw [h]
  show (match parseLoop fuel hashState "" emptyProtoFile with
    | .ok (_, _, pf1) => PResult.ok pf1
    | .err e => .err e
    | .diverge => .diverge) = .diverge
  rw [parseLoop_hash_diverge fuel "" emptyProtoFile]

/-- All messages of a message list, at every nesting depth. -/
def allMsgsIn (msgs : List MessageElement) : List MessageElement :=
  match msgs with
  | [] => []
  | m :: rest => m :: (allMsgsIn m.Messages ++ allMsgsIn rest)
termination_by sizeOf msgs
decreasing_by all_goals
  ((try simp only [List.cons.sizeOf_spec, MessageElement.sizeOf_expand]); omega)

/-- `InvPf` only looks at the message, enum and service lists. -/
theorem InvPf_components (pf pf' : ProtoFile)
    (hm : pf'.Messages = pf.Messages) (he : pf'.Enums = pf.Enums)
    (hs : pf'.Services = pf.Services) (h : InvPf pf) : InvPf pf' := by
  unfold InvPf at h ⊢
  rw [hm, he, hs]
  exact h

/-- `msgQNamesOk` only looks at the qualified name, enum list and nested
message list. -/
theorem msgQNamesOk_congr (a b : MessageElement)
    (hq : b.QualifiedName = a.QualifiedName) (he : b.Enums = a.Enums)
    (hm : b.Messages = a.Messages) : msgQNamesOk b = msgQNamesOk a := by
  rw [msgQNamesOk, msgQNamesOk, hq, he, hm]

/-- `msgsQNOk` over a one-element extension. -/
theorem msgsQNOk_append_one (qn : String) (m : MessageElement) :
    ∀ l : List MessageElement,
      msgsQNOk qn (l ++ [m]) = true ↔
        (msgsQNOk qn l = true ∧ m.QualifiedName = qn ++ "." ++ m.Name ∧
          msgQNamesOk m = true) := by
  intro l
  induction l with
  | nil =>
    simp only [List.nil_append]
    simp [msgsQNOk]
  | cons x rest ih =>
    simp only [List.cons_append]
    simp only [msgsQNOk, Bool.and_eq_true, ih]
    tauto

/-- Appending an enum whose qualified name extends the message's own keeps
`msgQNamesOk`. -/
theorem msgQNamesOk_append_enum (me : MessageElement) (e : EnumElement)
    (h : msgQNamesOk me = true)
    (hq : e.QualifiedName = me.QualifiedName ++ "." ++ e.Name) :
    msgQNamesOk { me with Enums := me.Enums ++ [e] } = true := by
  rw [msgQNamesOk] at h ⊢
  simp only [Bool.and_eq_true, List.all_append, List.all_cons, List.all_nil,
    Bool.and_true, beq_iff_eq] at h ⊢
  exact ⟨⟨h.1, hq⟩, h.2⟩

/-- Appending a nested message whose qualified name extends the message's
own and whose subtree is consistent keeps `msgQNamesOk`. -/
theorem msgQNamesOk_append_msg (me : MessageElement) (m : MessageElement)
    (h : msgQNamesOk me = true)
    (hq : m.QualifiedName = me.QualifiedName ++ "." ++ m.Name)
    (hm : msgQNamesOk m = true) :
    msgQNamesOk { me with Messages := me.Messages ++ [m] } = true := by
  rw [msgQNamesOk] at h ⊢
  simp only [Bool.and_eq_true] at h ⊢
  exact ⟨h.1, (msgsQNOk_append_one me.QualifiedName m me.Messages).mpr
    ⟨h.2, hq, hm⟩⟩

/-- `ctxShape` is reflexive. -/
theorem ctxShape_refl (ctx : CtxObj) : ctxShape ctx ctx := by
  cases ctx <;> simp [ctxShape]

/-- `ctxShape` is transitive. -/
theorem ctxShape_trans (a b c : CtxObj) (h1 : ctxShape a b)
    (h2 : ctxShape b c) : ctxShape a c := by
  cases a <;> cases b <;> cases c <;>
    simp only [ctxShape] at h1 h2 ⊢ <;>
    try trivial
  all_goals exact ⟨h2.1.trans h1.1, h2.2.trans h1.2⟩

/-- `ctxShape` preserves being the file context. -/
theorem ctxShape_file (a b : CtxObj) (h : ctxShape a b) :
    a = .fileObj ↔ b = .fileObj := by
  cases a <;> cases b <;> simp [ctxShape] at h ⊢

/-- A context whose type is the file context is the file object. -/
theorem ctxType_file (ctx : CtxObj) (h : ctx.ctxType = CtxType.fileCtx) :
    ctx = .fileObj := by
  cases ctx <;> simp [CtxObj.ctxType] at h ⊢

/-- Updating anything but the qualified name, enums and nested messages of
a message context keeps `CtxInv`. -/
theorem CtxInv_msg_update (me me' : MessageElement) (pfx : String)
    (hq : me'.QualifiedName = me.QualifiedName) (he : me'.Enums = me.Enums)
    (hm : me'.Messages = me.Messages) (h : CtxInv (.msgObj me) pfx) :
    CtxInv (.msgObj me') pfx := by
  obtain ⟨h1, h2⟩ := h
  refine ⟨?_, by rw [hq]; exact h2⟩
  rw [msgQNamesOk_congr me me' hq he hm]
  exact h1

/-- `readSyntax` only rewrites the `Syntax` field of the file. -/
theorem readSyntax_fields (s : PState) (pf : ProtoFile) (s2 : PState)
    (pf1 : ProtoFile) (h : readSyntax s pf = .ok (s2, pf1)) :
    pf1.Messages = pf.Messages ∧ pf1.Enums = pf.Enums ∧
      pf1.Services = pf.Services := by
  unfold readSyntax at h
  repeat' split at h
  all_goals simp at h
  all_goals obtain ⟨h1, h2⟩ := h
  all_goals subst h2
  all_goals simp

/-- `readImport` only appends to the dependency lists of the file. -/
theorem readImport_fields (s : PState) (pf : ProtoFile) (s2 : PState)
    (pf1 : ProtoFile) (h : readImport s pf = .ok (s2, pf1)) :
    pf1.Messages = pf.Messages ∧ pf1.Enums = pf.Enums ∧
      pf1.Services = pf.Services := by
  unfold readImport at h
  dsimp only at h
  repeat' split at h
  all_goals try cases h
  all_goals
    try (simp only [PResult.ok.injEq, Prod.mk.injEq] at h
         obtain ⟨h1, h2⟩ := h
         subst h2)
  all_goals exact ⟨rfl, rfl, rfl⟩

/-- `readOption` appends one option to the file or to the context payload,
keeping the file's type lists, the context shape and the context
invariant. -/
theorem readOption_shape (s : PState) (pf : ProtoFile) (doc : String)
    (ctx : CtxObj) (s2 : PState) (pf1 : ProtoFile) (ctx1 : CtxObj)
    (h : readOption s pf doc ctx = .ok (s2, pf1, ctx1)) :
    (pf1.Messages = pf.Messages ∧ pf1.Enums = pf.Enums ∧
      pf1.Services = pf.Services) ∧ ctxShape ctx ctx1 ∧
      (∀ pfx, CtxInv ctx pfx → CtxInv ctx1 pfx) := by
  unfold readOption at h
  split at h
  · dsimp only at h
    split at h
    · cases h
    · repeat' split at h
      all_goals try cases h
      all_goals
        try (simp only [PResult.ok.injEq, Prod.mk.injEq] at h
             obtain ⟨h1, h2, h3⟩ := h
             subst h2
             subst h3)
      all_goals refine ⟨by simp, ?_, ?_⟩
      all_goals try (intro pfx hc)
      all_goals
        first
        | exact ctxShape_refl _
        | (simp only [ctxShape]; constructor <;> rfl)
        | simp [ctxShape]
        | exact CtxInv_msg_update _ _ _ (by simp) (by simp) (by simp) hc
        | exact hc
        | trivial
  · cases h
  · cases h

/-- `readField` appends one field to the context payload, keeping the
context shape and the context invariant. -/
theorem readField_shape (fuel : Nat) (s : PState) (pf : ProtoFile)
    (label doc : String) (ctx : CtxObj) (s2 : PState) (ctx1 : CtxObj)
    (h : readField fuel s pf label doc ctx = .ok (s2, ctx1)) :
    ctxShape ctx ctx1 ∧ (∀ pfx, CtxInv ctx pfx → CtxInv ctx1 pfx) := by
  rw [readField] at h
  rcases hb1 : (label = optionalLbl && pf.Syntax = proto3 : Bool) with _ | _ <;>
    simp only [hb1, Bool.false_eq_true, if_false, if_true] at h
  case true => cases h
  rcases hb2 : (label = requiredLbl && pf.Syntax = proto3 : Bool) with _ | _ <;>
    simp only [hb2, Bool.false_eq_true, if_false, if_true] at h
  case true => cases h
  rcases hb3 : (label = requiredLbl && ctx.ctxType = CtxType.extendCtx : Bool)
      with _ | _ <;>
    simp only [hb3, Bool.false_eq_true, if_false, if_true] at h
  case true => cases h
  rcases hw : (label = requiredLbl || label = optionalLbl ||
      label = repeatedLbl : Bool) with _ | _ <;>
    simp only [hw, Bool.false_and, Bool.true_and, Bool.false_eq_true, if_false,
      if_true] at h
  · repeat' split at h
    all_goals try cases h
    all_goals
      try (simp only [PResult.ok.injEq, Prod.mk.injEq] at h
           obtain ⟨h1, h2⟩ := h
           subst h2)
    all_goals refine ⟨?_, ?_⟩
    all_goals try (intro pfx hc)
    all_goals
      first
      | exact ctxShape_refl _
      | (simp only [ctxShape]; constructor <;> rfl)
      | simp [ctxShape]
      | exact CtxInv_msg_update _ _ _ (by simp) (by simp) (by simp) hc
      | exact hc
      | trivial
  · rcases hb4 : (ctx.ctxType = CtxType.oneOfCtx : Bool) with _ | _ <;>
      simp only [hb4, Bool.false_eq_true, if_false, if_true] at h
    case true => cases h
    repeat' split at h
    all_goals try cases h
    all_goals
      try (simp only [PResult.ok.injEq, Prod.mk.injEq] at h
           obtain ⟨h1, h2⟩ := h
           subst h2)
    all_goals refine ⟨?_, ?_⟩
    all_goals try (intro pfx hc)
    all_goals
      first
      | exact ctxShape_refl _
      | (simp only [ctxShape]; constructor <;> rfl)
      | simp [ctxShape]
      | exact CtxInv_msg_update _ _ _ (by simp) (by simp) (by simp) hc
      | exact hc
      | trivial

/-- `readEnumConstant` appends one constant to the enum payload, keeping
the context shape and the (trivial) enum context invariant. -/
theorem readEnumConstant_shape (s : PState) (label doc : String)
    (ctx : CtxObj) (s2 : PState) (ctx1 : CtxObj)
    (h : readEnumConstant s label doc ctx = .ok (s2, ctx1)) :
    ctxShape ctx ctx1 ∧ (∀ pfx, CtxInv ctx pfx → CtxInv ctx1 pfx) := by
  unfold readEnumConstant at h
  repeat' split at h
  all_goals simp at h
  all_goals obtain ⟨h1, h2⟩ := h
  all_goals subst h2
  all_goals exact ⟨by simp [ctxShape], fun pfx hc => trivial⟩

/-- `readExtensions` appends one extensions range to the message payload,
keeping the context shape and the context invariant. -/
theorem readExtensions_shape (s : PState) (pf : ProtoFile) (doc : String)
    (ctx : CtxObj) (s2 : PState) (ctx1 : CtxObj)
    (h : readExtensions s pf doc ctx = .ok (s2, ctx1)) :
    ctxShape ctx ctx1 ∧ (∀ pfx, CtxInv ctx pfx → CtxInv ctx1 pfx) := by
  unfold readExtensions at h
  repeat' split at h
  all_goals simp at h
  all_goals obtain ⟨h1, h2⟩ := h
  all_goals subst h2
  all_goals refine ⟨by simp [ctxShape], ?_⟩
  all_goals intro pfx hc
  all_goals exact CtxInv_msg_update _ _ _ (by simp) (by simp) (by simp) hc

/-- The reserved-ranges loop only appends to `ReservedRanges`. -/
theorem readReservedRangesLoop_fields (doc : String) :
    ∀ (fuel : Nat) (s : PState) (me : MessageElement) (s3 : PState)
      (me1 : MessageElement),
      readReservedRangesLoop doc fuel s me = .ok (s3, me1) →
      me1.QualifiedName = me.QualifiedName ∧ me1.Name = me.Name ∧
        me1.Enums = me.Enums ∧ me1.Messages = me.Messages := by
  intro fuel
  induction fuel with
  | zero => intro s me s3 me1 h; cases h
  | succ n ih =>
    intro s me s3 me1 h
    unfold readReservedRangesLoop at h
    repeat' split at h
    all_goals
      first
      | (have q := ih _ _ _ _ h
         exact ⟨q.1, q.2.1, q.2.2.1, q.2.2.2⟩)
      | (simp at h
         obtain ⟨h1, h2⟩ := h
         subst h2
         simp)
      | simp at h

/-- The reserved-names loop only appends to `ReservedNames`. -/
theorem readReservedNamesLoop_fields (doc : String) :
    ∀ (fuel : Nat) (s : PState) (me : MessageElement) (s3 : PState)
      (me1 : MessageElement),
      readReservedNamesLoop doc fuel s me = .ok (s3, me1) →
      me1.QualifiedName = me.QualifiedName ∧ me1.Name = me.Name ∧
        me1.Enums = me.Enums ∧ me1.Messages = me.Messages := by
  intro fuel
  induction fuel with
  | zero => intro s me s3 me1 h; cases h
  | succ n ih =>
    intro s me s3 me1 h
    unfold readReservedNamesLoop at h
    repeat' split at h
    all_goals
      first
      | (have q := ih _ _ _ _ h
         exact ⟨q.1, q.2.1, q.2.2.1, q.2.2.2⟩)
      | (simp at h
         obtain ⟨h1, h2⟩ := h
         subst h2
         simp)
      | simp at h

/-- `readReserved` appends reserved ranges or names to the message payload,
keeping the context shape and the context invariant. -/
theorem readReserved_shape (fuel : Nat) (s : PState) (doc : String)
    (ctx : CtxObj) (s2 : PState) (ctx1 : CtxObj)
    (h : readReserved fuel s doc ctx = .ok (s2, ctx1)) :
    ctxShape ctx ctx1 ∧ (∀ pfx, CtxInv ctx pfx → CtxInv ctx1 pfx) := by
  unfold readReserved at h
  split at h
  case _ me =>
    split at h
    split at h
    · dsimp only at h
      split at h
      · rename_i s3r me1' hl
        simp at h
        obtain ⟨h1, h2⟩ := h
        subst h2
        obtain ⟨q1, q2, q3, q4⟩ := readReservedRangesLoop_fields doc _ _ _ _ _ hl
        exact ⟨⟨q1, q2⟩, fun pfx hc => CtxInv_msg_update _ _ _ q1 q3 q4 hc⟩
      · cases h
      · cases h
    · dsimp only at h
      split at h
      · rename_i s3r me1' hl
        simp at h
        obtain ⟨h1, h2⟩ := h
        subst h2
        obtain ⟨q1, q2, q3, q4⟩ := readReservedNamesLoop_fields doc _ _ _ _ _ hl
        exact ⟨⟨q1, q2⟩, fun pfx hc => CtxInv_msg_update _ _ _ q1 q3 q4 hc⟩
      · cases h
      · cases h
  case _ => cases h

/-- A message with no enums and no nested messages satisfies the
qualified-name invariant vacuously. -/
theorem msgQNamesOk_nil (me : MessageElement) (he : me.Enums = [])
    (hm : me.Messages = []) : msgQNamesOk me = true := by
  rw [msgQNamesOk, he, hm]
  rw [msgsQNOk]
  simp

/-- Appending a message whose qualified name is a prefix plus its name and
whose subtree is consistent keeps `InvPf`. -/
theorem InvPf_append_msg (pf : ProtoFile) (m : MessageElement) (p : String)
    (hq : m.QualifiedName = p ++ m.Name) (hok : msgQNamesOk m = true)
    (h : InvPf pf) : InvPf { pf with Messages := pf.Messages ++ [m] } := by
  obtain ⟨h1, h2, h3⟩ := h
  refine ⟨?_, h2, h3⟩
  intro x hx
  rcases List.mem_append.mp hx with hx | hx
  · exact h1 x hx
  · rw [List.mem_singleton] at hx
    subst hx
    exact ⟨⟨p, hq⟩, hok⟩

/-- Appending an enum whose qualified name is a prefix plus its name keeps
`InvPf`. -/
theorem InvPf_append_enum (pf : ProtoFile) (e : EnumElement) (p : String)
    (hq : e.QualifiedName = p ++ e.Name) (h : InvPf pf) :
    InvPf { pf with Enums := pf.Enums ++ [e] } := by
  obtain ⟨h1, h2, h3⟩ := h
  refine ⟨h1, ?_, h3⟩
  intro x hx
  rcases List.mem_append.mp hx with hx | hx
  · exact h2 x hx
  · rw [List.mem_singleton] at hx
    subst hx
    exact ⟨p, hq⟩

/-- Appending a service whose qualified name is a prefix plus its name
keeps `InvPf`. -/
theorem InvPf_append_service (pf : ProtoFile) (sv : ServiceElement)
    (p : String) (hq : sv.QualifiedName = p ++ sv.Name) (h : InvPf pf) :
    InvPf { pf with Services := pf.Services ++ [sv] } := by
  obtain ⟨h1, h2, h3⟩ := h
  refine ⟨h1, h2, ?_⟩
  intro x hx
  rcases List.mem_append.mp hx with hx | hx
  · exact h3 x hx
  · rw [List.mem_singleton] at hx
    subst hx
    exact ⟨p, hq⟩

/-- The qualified-name invariant of the parsing step functions, by mutual
induction on fuel: a successful step preserves the document invariant, the
context shape, and the context/prefix invariant, and non-file contexts
never change the prefix. -/
theorem parseStepInvariants :
    ∀ fuel : Nat,
      (∀ s pfx pf doc ctx s' pfx' pf' ctx',
        readDeclaration fuel s pfx pf doc ctx = .ok (s', pfx', pf', ctx') →
        InvPf pf → CtxInv ctx pfx →
        InvPf pf' ∧ ctxShape ctx ctx' ∧ CtxInv ctx' pfx' ∧
          (ctx ≠ .fileObj → pfx' = pfx)) ∧
      (∀ s pfx pf ctx s' pfx' pf' ctx',
        readDeclarationsInLoop fuel s pfx pf ctx = .ok (s', pfx', pf', ctx') →
        InvPf pf → CtxInv ctx pfx →
        InvPf pf' ∧ ctxShape ctx ctx' ∧ CtxInv ctx' pfx' ∧
          (ctx ≠ .fileObj → pfx' = pfx)) ∧
      (∀ s pfx pf doc ctx s' pf' ctx',
        readMessage fuel s pfx pf doc ctx = .ok (s', pf', ctx') →
        InvPf pf → CtxInv ctx pfx →
        InvPf pf' ∧ ctxShape ctx ctx' ∧ CtxInv ctx' pfx) ∧
      (∀ s pfx pf doc ctx s' pf' ctx',
        readEnum fuel s pfx pf doc ctx = .ok (s', pf', ctx') →
        InvPf pf → CtxInv ctx pfx →
        InvPf pf' ∧ ctxShape ctx ctx' ∧ CtxInv ctx' pfx) ∧
      (∀ s pfx pf doc ctx s' pf' ctx',
        readOneOf fuel s pfx pf doc ctx = .ok (s', pf', ctx') →
        InvPf pf → CtxInv ctx pfx →
        InvPf pf' ∧ ctxShape ctx ctx' ∧ CtxInv ctx' pfx) ∧
      (∀ s pfx pf doc ctx s' pf' ctx',
        readExtend fuel s pfx pf doc ctx = .ok (s', pf', ctx') →
        InvPf pf → CtxInv ctx pfx →
        InvPf pf' ∧ ctxShape ctx ctx' ∧ CtxInv ctx' pfx) ∧
      (∀ s pfx pf doc s' pf',
        readService fuel s pfx pf doc = .ok (s', pf') →
        InvPf pf → InvPf pf') ∧
      (∀ s pfx pf re s' pfx' pf' re',
        readRPCBodyLoop fuel s pfx pf re = .ok (s', pfx', pf', re') →
        InvPf pf → InvPf pf') ∧
      (∀ s pfx pf se doc s' pf' se',
        readRPC fuel s pfx pf se doc = .ok (s', pf', se') →
        InvPf pf →
        InvPf pf' ∧ se'.QualifiedName = se.QualifiedName ∧
          se'.Name = se.Name) := by
  intro fuel
  induction fuel with
  | zero =>
    refine ⟨?_, ?_, ?_, ?_, ?_, ?_, ?_, ?_, ?_⟩
    · intro s pfx pf doc ctx s' pfx' pf' ctx' h _ _
      rw [readDeclaration] at h
      cases h
    · intro s pfx pf ctx s' pfx' pf' ctx' h _ _
      rw [readDeclarationsInLoop] at h
      cases h
    · intro s pfx pf doc ctx s' pf' ctx' h _ _
      rw [readMessage] at h
      cases h
    · intro s pfx pf doc ctx s' pf' ctx' h _ _
      rw [readEnum] at h
      cases h
    · intro s pfx pf doc ctx s' pf' ctx' h _ _
      rw [readOneOf] at h
      cases h
    · intro s pfx pf doc ctx s' pf' ctx' h _ _
      rw [readExtend] at h
      cases h
    · intro s pfx pf doc s' pf' h _
      rw [readService] at h
      cases h
    · intro s pfx pf re s' pfx' pf' re' h _
      rw [readRPCBodyLoop] at h
      cases h
    · intro s pfx pf se doc s' pf' se' h _
      rw [readRPC] at h
      cases h
  | succ n ih =>
    obtain ⟨ihD, ihL, ihM, ihE, ihO, ihX, ihS, ihB, ihR⟩ := ih
    refine ⟨?_, ?_, ?_, ?_, ?_, ?_, ?_, ?_, ?_⟩
    · intro s pfx pf doc ctx s' pfx' pf' ctx' h hpf hctx
      rw [readDeclaration] at h
      dsimp only at h
      by_cases h0 : (read s).1 = ';'
      · rw [if_pos h0] at h
        cases h
        exact ⟨hpf, ctxShape_refl _, hctx, fun _ => rfl⟩
      · rw [if_neg h0] at h
        set w := readWord (unread (read s).1 (read s).2) with hw
        by_cases k1 : w.1 = "package"
        · rw [if_pos k1] at h
          by_cases hg : (!ctx.ctxType.permitsPackage) = true
          · rw [if_pos hg] at h
            cases h
          · rw [if_neg hg] at h
            cases h
            have hperm : ctx.ctxType.permitsPackage = true := by simpa using hg
            have hfile : ctx = .fileObj := by
              apply ctxType_file
              simpa [CtxType.permitsPackage] using hperm
            refine ⟨InvPf_components pf _ rfl rfl rfl hpf, ctxShape_refl _,
              ?_, ?_⟩
            · rw [hfile]
              trivial
            · intro hne
              exact absurd hfile hne
        · rw [if_neg k1] at h
          by_cases k2 : w.1 = "syntax"
          · rw [if_pos k2] at h
            by_cases hg : (!ctx.ctxType.permitsSyntax) = true
            · rw [if_pos hg] at h
              cases h
            · rw [if_neg hg] at h
              split at h
              · rename_i s2 pf1 heq
                cases h
                obtain ⟨c1, c2, c3⟩ := readSyntax_fields _ _ _ _ heq
                exact ⟨InvPf_components pf _ c1 c2 c3 hpf, ctxShape_refl _,
                  hctx, fun _ => rfl⟩
              · cases h
              · cases h
          · rw [if_neg k2] at h
            by_cases k3 : w.1 = "import"
            · rw [if_pos k3] at h
              by_cases hg : (!ctx.ctxType.permitsImport) = true
              · rw [if_pos hg] at h
                cases h
              · rw [if_neg hg] at h
                split at h
                · rename_i s2 pf1 heq
                  cases h
                  obtain ⟨c1, c2, c3⟩ := readImport_fields _ _ _ _ heq
                  exact ⟨InvPf_components pf _ c1 c2 c3 hpf,
                    ctxShape_refl _, hctx, fun _ => rfl⟩
                · cases h
                · cases h
            · rw [if_neg k3] at h
              by_cases k4 : w.1 = "option"
              · rw [if_pos k4] at h
                by_cases hg : (!ctx.ctxType.permitsOption) = true
                · rw [if_pos hg] at h
                  cases h
                · rw [if_neg hg] at h
                  split at h
                  · rename_i s2 pf1 ctx1 heq
                    cases h
                    obtain ⟨⟨c1, c2, c3⟩, hsh, hpres⟩ :=
                      readOption_shape _ _ _ _ _ _ _ heq
                    exact ⟨InvPf_components pf _ c1 c2 c3 hpf, hsh,
                      hpres _ hctx, fun _ => rfl⟩
                  · cases h
                  · cases h
              · rw [if_neg k4] at h
                by_cases k5 : w.1 = "message"
                · rw [if_pos k5] at h
                  by_cases hg : (!ctx.ctxType.permitsMsg) = true
                  · rw [if_pos hg] at h
                    cases h
                  · rw [if_neg hg] at h
                    split at h
                    · rename_i s2 pf1 ctx1 heq
                      cases h
                      obtain ⟨q1, q2, q3⟩ := ihM _ _ _ _ _ _ _ _ heq hpf hctx
                      exact ⟨q1, q2, q3, fun _ => rfl⟩
                    · cases h
                    · cases h
                · rw [if_neg k5] at h
                  by_cases k6 : w.1 = "enum"
                  · rw [if_pos k6] at h
                    by_cases hg : (!ctx.ctxType.permitsEnum) = true
                    · rw [if_pos hg] at h
                      cases h
                    · rw [if_neg hg] at h
                      split at h
                      · rename_i s2 pf1 ctx1 heq
                        cases h
                        obtain ⟨q1, q2, q3⟩ := ihE _ _ _ _ _ _ _ _ heq hpf hctx
                        exact ⟨q1, q2, q3, fun _ => rfl⟩
                      · cases h
                      · cases h
                  · rw [if_neg k6] at h
                    by_cases k7 : w.1 = "extend"
                    · rw [if_pos k7] at h
                      by_cases hg : (!ctx.ctxType.permitsExtend) = true
                      · rw [if_pos hg] at h
                        cases h
                      · rw [if_neg hg] at h
                        split at h
                        · rename_i s2 pf1 ctx1 heq
                          cases h
                          obtain ⟨q1, q2, q3⟩ :=
                            ihX _ _ _ _ _ _ _ _ heq hpf hctx
                          exact ⟨q1, q2, q3, fun _ => rfl⟩
                        · cases h
                        · cases h
                    · rw [if_neg k7] at h
                      by_cases k8 : w.1 = "service"
                      · rw [if_pos k8] at h
                        split at h
                        · rename_i s2 pf1 heq
                          cases h
                          exact ⟨ihS _ _ _ _ _ _ heq hpf, ctxShape_refl _,
                            hctx, fun _ => rfl⟩
                        · cases h
                        · cases h
                      · rw [if_neg k8] at h
                        by_cases k9 : w.1 = "rpc"
                        · rw [if_pos k9] at h
                          by_cases hg : (!ctx.ctxType.permitsRPC) = true
                          · rw [if_pos hg] at h
                            cases h
                          · rw [if_neg hg] at h
                            split at h
                            · rename_i se
                              split at h
                              · rename_i s2 pf1 se1 heq
                                cases h
                                obtain ⟨q1, q2, q3⟩ :=
                                  ihR _ _ _ _ _ _ _ _ heq hpf
                                exact ⟨q1, ⟨q2, q3⟩, trivial, fun _ => rfl⟩
                              · cases h
                              · cases h
                            · cases h
                        · rw [if_neg k9] at h
                          by_cases k10 : w.1 = "oneof"
                          · rw [if_pos k10] at h
                            by_cases hg : (!ctx.ctxType.permitsOneOf) = true
                            · rw [if_pos hg] at h
                              cases h
                            · rw [if_neg hg] at h
                              split at h
                              · rename_i s2 pf1 ctx1 heq
                                cases h
                                obtain ⟨q1, q2, q3⟩ :=
                                  ihO _ _ _ _ _ _ _ _ heq hpf hctx
                                exact ⟨q1, q2, q3, fun _ => rfl⟩
                              · cases h
                              · cases h
                          · rw [if_neg k10] at h
                            by_cases k11 : w.1 = "extensions"
                            · rw [if_pos k11] at h
                              by_cases hg :
                                  (!ctx.ctxType.permitsExtensions) = true
                              · rw [if_pos hg] at h
                                cases h
                              · rw [if_neg hg] at h
                                split at h
                                · rename_i s2 ctx1 heq
                                  cases h
                                  obtain ⟨q1, q2⟩ :=
                                    readExtensions_shape _ _ _ _ _ _ heq
                                  exact ⟨hpf, q1, q2 _ hctx, fun _ => rfl⟩
                                · cases h
                                · cases h
                            · rw [if_neg k11] at h
                              by_cases k12 : w.1 = "reserved"
                              · rw [if_pos k12] at h
                                by_cases hg :
                                    (!ctx.ctxType.permitsReserved) = true
                                · rw [if_pos hg] at h
                                  cases h
                                · rw [if_neg hg] at h
                                  split at h
                                  · rename_i s2 ctx1 heq
                                    cases h
                                    obtain ⟨q1, q2⟩ :=
                                      readReserved_shape _ _ _ _ _ _ heq
                                    exact ⟨hpf, q1, q2 _ hctx, fun _ => rfl⟩
                                  · cases h
                                  · cases h
                              · rw [if_neg k12] at h
                                by_cases kf :
                                    (decide (ctx.ctxType = CtxType.msgCtx) ||
                                      decide (ctx.ctxType = CtxType.extendCtx) ||
                                      decide (ctx.ctxType = CtxType.oneOfCtx)) =
                                      true
                                · rw [if_pos kf] at h
                                  by_cases hg :
                                      (!ctx.ctxType.permitsField) = true
                                  · rw [if_pos hg] at h
                                    cases h
                                  · rw [if_neg hg] at h
                                    split at h
                                    · rename_i s2 ctx1 heq
                                      cases h
                                      obtain ⟨q1, q2⟩ :=
                                        readField_shape _ _ _ _ _ _ _ _ heq
                                      exact ⟨hpf, q1, q2 _ hctx, fun _ => rfl⟩
                                    · cases h
                                    · cases h
                                · rw [if_neg kf] at h
                                  by_cases ke :
                                      ctx.ctxType = CtxType.enumCtx
                                  · rw [if_pos ke] at h
                                    split at h
                                    · rename_i s2 ctx1 heq
                                      cases h
                                      obtain ⟨q1, q2⟩ :=
                                        readEnumConstant_shape _ _ _ _ _ _ heq
                                      exact ⟨hpf, q1, q2 _ hctx, fun _ => rfl⟩
                                    · cases h
                                    · cases h
                                  · rw [if_neg ke] at h
                                    by_cases kl : w.1 ≠ ""
                                    · rw [if_pos kl] at h
                                      cases h
                                    · rw [if_neg kl] at h
                                      cases h
                                      exact ⟨hpf, ctxShape_refl _, hctx,
                                        fun _ => rfl⟩
    · intro s pfx pf ctx s' pfx' pf' ctx' h hpf hctx
      rw [readDeclarationsInLoop] at h
      split at h
      · dsimp only at h
        split at h
        · cases h
        · split at h
          · cases h
            exact ⟨hpf, ctxShape_refl _, hctx, fun _ => rfl⟩
          · split at h
            · rename_i s4 pfx1 pf1 ctx1 heqD
              obtain ⟨q1, q2, q3, q4⟩ := ihD _ _ _ _ _ _ _ _ _ heqD hpf hctx
              obtain ⟨r1, r2, r3, r4⟩ := ihL _ _ _ _ _ _ _ _ h q1 q3
              refine ⟨r1, ctxShape_trans _ _ _ q2 r2, r3, ?_⟩
              intro hne
              have hne1 : ctx1 ≠ .fileObj := fun hh =>
                hne ((ctxShape_file _ _ q2).mpr hh)
              rw [r4 hne1, q4 hne]
            · cases h
            · cases h
      · cases h
      · cases h
    · intro s pfx pf doc ctx s' pf' ctx' h hpf hctx
      rw [readMessage] at h
      split at h
      · rename_i name enc s1 heqN
        dsimp only at h
        split at h
        · cases h
        · split at h
          · rename_i s3 pfx1 pf1 ictx heqL
            have hci : CtxInv (.msgObj
                { Name := name, QualifiedName := pfx ++ name,
                  Documentation := doc, Options := [], Fields := [],
                  Enums := [], OneOfs := [], Extensions := [],
                  ReservedRanges := [], ReservedNames := [], Messages := [],
                  ExtendDeclarations := [] }) (pfx ++ name ++ ".") :=
              ⟨msgQNamesOk_nil _ rfl rfl, by exact rfl⟩
            obtain ⟨q1, q2, q3, q4⟩ := ihL _ _ _ _ _ _ _ _ heqL hpf hci
            have hpfx1 : pfx1 = pfx ++ name ++ "." := q4 (fun hh => by cases hh)
            split at h
            · rename_i me1
              obtain ⟨hQ, hN⟩ := q2
              obtain ⟨hok1, hpq1⟩ := q3
              have e1 : me1.QualifiedName = pfx ++ name := hQ
              have e2 : me1.Name = name := hN
              split at h
              · rename_i parent
                cases h
                obtain ⟨hokP, hpfxP⟩ := hctx
                refine ⟨q1, ⟨rfl, rfl⟩, ⟨?_, hpfxP⟩⟩
                exact msgQNamesOk_append_msg parent me1 hokP
                  (by rw [e1, e2, hpfxP]) hok1
              · cases h
                refine ⟨?_, ctxShape_refl _, hctx⟩
                exact InvPf_append_msg pf1 me1 pfx (by rw [e1, e2]) hok1 q1
            · cases h
          · cases h
          · cases h
      · cases h
      · cases h
    · intro s pfx pf doc ctx s' pf' ctx' h hpf hctx
      rw [readEnum] at h
      split at h
      · rename_i name enc s1 heqN
        dsimp only at h
        split at h
        · cases h
        · split at h
          · rename_i s3 pfx1 pf1 ictx heqL
            obtain ⟨q1, q2, q3, q4⟩ := ihL _ _ _ _ _ _ _ _ heqL hpf trivial
            split at h
            · rename_i ee1
              obtain ⟨hQ, hN⟩ := q2
              have e1 : ee1.QualifiedName = pfx ++ name := hQ
              have e2 : ee1.Name = name := hN
              split at h
              · rename_i parent
                cases h
                obtain ⟨hokP, hpfxP⟩ := hctx
                refine ⟨q1, ⟨rfl, rfl⟩, ⟨?_, hpfxP⟩⟩
                exact msgQNamesOk_append_enum parent ee1 hokP
                  (by rw [e1, e2, hpfxP])
              · cases h
                refine ⟨?_, ctxShape_refl _, hctx⟩
                exact InvPf_append_enum pf1 ee1 pfx (by rw [e1, e2]) q1
            · cases h
          · cases h
          · cases h
      · cases h
      · cases h
    · intro s pfx pf doc ctx s' pf' ctx' h hpf hctx
      rw [readOneOf] at h
      split at h
      · rename_i name enc s1 heqN
        dsimp only at h
        split at h
        · cases h
        · split at h
          · rename_i s3 pfx1 pf1 ictx heqL
            obtain ⟨q1, q2, q3, q4⟩ := ihL _ _ _ _ _ _ _ _ heqL hpf trivial
            split at h
            · rename_i oe1
              split at h
              · rename_i me
                cases h
                exact ⟨q1, ⟨rfl, rfl⟩, CtxInv_msg_update me _ _ rfl rfl rfl hctx⟩
              · cases h
            · cases h
          · cases h
          · cases h
      · cases h
      · cases h
    · intro s pfx pf doc ctx s' pf' ctx' h hpf hctx
      rw [readExtend] at h
      split at h
      · rename_i name enc s1 heqN
        dsimp only at h
        split at h
        · cases h
        · split at h
          · rename_i s3 pfx1 pf1 ictx heqL
            obtain ⟨q1, q2, q3, q4⟩ := ihL _ _ _ _ _ _ _ _ heqL hpf trivial
            split at h
            · rename_i xe1
              split at h
              · rename_i me
                cases h
                exact ⟨q1, ⟨rfl, rfl⟩, CtxInv_msg_update me _ _ rfl rfl rfl hctx⟩
              · cases h
                exact ⟨InvPf_components pf1 _ rfl rfl rfl q1, ctxShape_refl _,
                  hctx⟩
            · cases h
          · cases h
          · cases h
      · cases h
      · cases h
    · intro s pfx pf doc s' pf' h hpf
      rw [readService] at h
      split at h
      · rename_i name enc s1 heqN
        dsimp only at h
        split at h
        · cases h
        · split at h
          · rename_i s3 pfx1 pf1 ictx heqL
            obtain ⟨q1, q2, q3, q4⟩ := ihL _ _ _ _ _ _ _ _ heqL hpf trivial
            split at h
            · rename_i se1
              cases h
              obtain ⟨hQ, hN⟩ := q2
              have e1 : se1.QualifiedName = pfx ++ name := hQ
              have e2 : se1.Name = name := hN
              exact InvPf_append_service pf1 se1 pfx (by rw [e1, e2]) q1
            · cases h
          · cases h
          · cases h
      · cases h
      · cases h
    · intro s pfx pf re s' pfx' pf' re' h hpf
      rw [readRPCBodyLoop] at h
      dsimp only at h
      split at h
      · cases h
        exact hpf
      · split at h
        · cases h
          exact hpf
        · split at h
          · split at h
            · rename_i s4 pfx1 pf1 ctx1 heqD
              obtain ⟨q1, q2, q3, q4⟩ := ihD _ _ _ _ _ _ _ _ _ heqD hpf trivial
              split at h
              · exact ihB _ _ _ _ _ _ _ _ h q1
              · cases h
            · cases h
            · cases h
          · cases h
          · cases h
    · intro s pfx pf se doc s' pf' se' h hpf
      rw [readRPC] at h
      split at h
      · rename_i name enc s1 heqN
        dsimp only at h
        split at h
        · cases h
        · split at h
          · rename_i reqT s3 heqT
            split at h
            · cases h
            · split at h
              · cases h
              · split at h
                · cases h
                · split at h
                  · rename_i respT s7 heqT2
                    split at h
                    · cases h
                    · split at h
                      · split at h
                        · rename_i s10 pfx1 pf1 re1 heqB
                          cases h
                          exact ⟨ihB _ _ _ _ _ _ _ _ heqB hpf, rfl, rfl⟩
                        · cases h
                        · cases h
                      · split at h
                        · cases h
                        · cases h
                          exact ⟨hpf, rfl, rfl⟩
                  · cases h
                  · cases h
          · cases h
          · cases h
      · cases h
      · cases h

/-- Membership form of `msgsQNOk`. -/
theorem msgsQNOk_mem (qn : String) :
    ∀ l : List MessageElement, msgsQNOk qn l = true →
      ∀ m ∈ l, m.QualifiedName = qn ++ "." ++ m.Name ∧
        msgQNamesOk m = true := by
  intro l
  induction l with
  | nil => intro _ m hm; cases hm
  | cons x rest ih =>
    intro hall m hm
    rw [msgsQNOk] at hall
    simp only [Bool.and_eq_true, beq_iff_eq] at hall
    rcases List.mem_cons.mp hm with rfl | hm
    · exact ⟨hall.1.1, hall.1.2⟩
    · exact ih hall.2 m hm

/-- Destructured form of `msgQNamesOk`. -/
theorem msgQNamesOk_dest (me : MessageElement) (h : msgQNamesOk me = true) :
    (∀ e ∈ me.Enums,
      e.QualifiedName = me.QualifiedName ++ "." ++ e.Name) ∧
      msgsQNOk me.QualifiedName me.Messages = true := by
  rw [msgQNamesOk] at h
  simp only [Bool.and_eq_true, List.all_eq_true, beq_iff_eq] at h
  exact h

/-- Every message of a consistent subtree is itself consistent. -/
theorem allMsgsIn_ok :
    ∀ (n : Nat) (qn : String) (msgs : List MessageElement), sizeOf msgs < n →
      msgsQNOk qn msgs = true →
      ∀ m ∈ allMsgsIn msgs, msgQNamesOk m = true := by
  intro n
  induction n with
  | zero => intro qn msgs h; omega
  | succ n ih =>
    intro qn msgs hlt hall m hm
    match msgs with
    | [] =>
      rw [allMsgsIn] at hm
      cases hm
    | x :: rest =>
      rw [allMsgsIn] at hm
      have hx := msgsQNOk_mem qn _ hall x (by simp)
      have hrest : msgsQNOk qn rest = true := by
        rw [msgsQNOk] at hall
        simp only [Bool.and_eq_true] at hall
        exact hall.2
      have hsz : sizeOf (x :: rest) = 1 + sizeOf x + sizeOf rest := by
        simp only [List.cons.sizeOf_spec]
      have hszx := MessageElement.sizeOf_expand x
      rcases List.mem_cons.mp hm with rfl | hm2
      · exact hx.2
      · rcases List.mem_append.mp hm2 with hm3 | hm3
        · exact ih x.QualifiedName x.Messages (by omega)
            (msgQNamesOk_dest x hx.2).2 m hm3
        · exact ih qn rest (by omega) hrest m hm3

/-- Every qualified name declared strictly inside a consistent sibling list
extends the enclosing qualified name by a dot. -/
theorem typeQNames_dotted :
    ∀ (n : Nat) (qn : String) (msgs : List MessageElement), sizeOf msgs < n →
      msgsQNOk qn msgs = true →
      ∀ q ∈ typeQNames msgs, ∃ rest, q = qn ++ "." ++ rest := by
  intro n
  induction n with
  | zero => intro qn msgs h; omega
  | succ n ih =>
    intro qn msgs hlt hall q hq
    match msgs with
    | [] =>
      rw [typeQNames] at hq
      cases hq
    | x :: rest =>
      rw [typeQNames] at hq
      have hx := msgsQNOk_mem qn _ hall x (by simp)
      have hrest : msgsQNOk qn rest = true := by
        rw [msgsQNOk] at hall
        simp only [Bool.and_eq_true] at hall
        exact hall.2
      have hsz : sizeOf (x :: rest) = 1 + sizeOf x + sizeOf rest := by
        simp only [List.cons.sizeOf_spec]
      have hszx := MessageElement.sizeOf_expand x
      rcases List.mem_cons.mp hq with rfl | hq2
      · exact ⟨x.Name, hx.1⟩
      · rcases List.mem_append.mp hq2 with hq3 | hq3
        · rcases List.mem_append.mp hq3 with hq4 | hq4
          · obtain ⟨e, hee, rfl⟩ := List.mem_map.mp hq4
            refine ⟨x.Name ++ "." ++ e.Name, ?_⟩
            rw [(msgQNamesOk_dest x hx.2).1 e hee, hx.1]
            simp [String.append_assoc]
          · obtain ⟨r, hr⟩ := ih x.QualifiedName x.Messages (by omega)
              (msgQNamesOk_dest x hx.2).2 q hq4
            refine ⟨x.Name ++ "." ++ r, ?_⟩
            rw [hr, hx.1]
            simp [String.append_assoc]
        · exact ih qn rest (by omega) hrest q hq3

/-- Per-node strict dot-extension: inside a consistent message, every
nested type's qualified name is the message's qualified name, a dot, and a
remainder. -/
theorem msgSubtree_dotted (m : MessageElement) (h : msgQNamesOk m = true) :
    ∀ q ∈ (m.Enums.map fun e => e.QualifiedName) ++ typeQNames m.Messages,
      ∃ rest, q = m.QualifiedName ++ "." ++ rest := by
  intro q hq
  obtain ⟨he, hm⟩ := msgQNamesOk_dest m h
  rcases List.mem_append.mp hq with hq | hq
  · obtain ⟨e, hee, rfl⟩ := List.mem_map.mp hq
    exact ⟨e.Name, he e hee⟩
  · exact typeQNames_dotted (sizeOf m.Messages + 1) m.QualifiedName
      m.Messages (by omega) hm q hq

/-- From the document invariant, every message at every depth is
consistent. -/
theorem allMsgsInDoc_ok (msgs : List MessageElement)
    (h : ∀ m ∈ msgs, msgQNamesOk m = true) :
    ∀ m ∈ allMsgsIn msgs, msgQNamesOk m = true := by
  induction msgs with
  | nil =>
    intro m hm
    rw [allMsgsIn] at hm
    cases hm
  | cons x rest ih =>
    intro m hm
    rw [allMsgsIn] at hm
    rcases List.mem_cons.mp hm with rfl | hm2
    · exact h m (by simp)
    · rcases List.mem_append.mp hm2 with hm3 | hm3
      · exact allMsgsIn_ok (sizeOf x.Messages + 1) x.QualifiedName
          x.Messages (by omega) (msgQNamesOk_dest x (h x (by simp))).2 m hm3
      · exact ih (fun m' hm' => h m' (by simp [hm'])) m hm3

/-- The zero `ProtoFile` satisfies the document invariant. -/
theorem InvPf_empty : InvPf emptyProtoFile := by
  refine ⟨?_, ?_, ?_⟩ <;> intro x hx <;> simp [emptyProtoFile] at hx

/-- The top-level parse loop preserves the document invariant. -/
theorem parseLoop_InvPf :
    ∀ (n : Nat) (s : PState) (pfx : String) (pf : ProtoFile) (s' : PState)
      (pfx' : String) (pf' : ProtoFile),
      parseLoop n s pfx pf = .ok (s', pfx', pf') → InvPf pf → InvPf pf' := by
  intro n
  induction n with
  | zero =>
    intro s pfx pf s' pfx' pf' h
    rw [parseLoop] at h
    cases h
  | succ n ih =>
    intro s pfx pf s' pfx' pf' h hpf
    rw [parseLoop] at h
    split at h
    · split at h
      · cases h
        exact hpf
      · dsimp only at h
        split at h
        · cases h
          exact hpf
        · split at h
          · rename_i s3 pfx1 pf1 x heq
            obtain ⟨q1, _, _, _⟩ :=
              (parseStepInvariants n).1 _ _ _ _ _ _ _ _ _ heq hpf trivial
            split at h
            · cases h
              exact q1
            · exact ih _ _ _ _ _ _ h q1
          · cases h
          · cases h
    · cases h
    · cases h

/-- C1: for every successful parse, every message, enum and service record
carries `QualifiedName = prefix-at-declaration-site ++ Name` (witnessed by
the existential prefix at top level and by the enclosing message's
qualified name plus a dot at every nesting level), and consequently an
enclosing message's qualified name extended by a dot is a prefix of every
deeper nested type's qualified name. -/
theorem c1_qualified_names (fuel : Nat) (text : String) (pf' : ProtoFile)
    (h : runParse fuel text = .ok pf') :
    InvPf pf' ∧
      ∀ m ∈ allMsgsIn pf'.Messages,
        ∀ q ∈ (m.Enums.map fun e => e.QualifiedName) ++
            typeQNames m.Messages,
          ∃ rest, q = m.QualifiedName ++ "." ++ rest := by
  have hinv : InvPf pf' := by
    unfold runParse parse at h
    dsimp only at h
    split at h
    · rename_i s1 pfx1 pf1 heq
      cases h
      exact parseLoop_InvPf _ _ _ _ _ _ _ heq InvPf_empty
    · cases h
    · cases h
  refine ⟨hinv, ?_⟩
  intro m hm q hq
  have hok : msgQNamesOk m = true :=
    allMsgsInDoc_ok pf'.Messages (fun m' hm' => (hinv.1 m' hm').2) m hm
  exact msgSubtree_dotted m hok q hq

/-- The nested message `B` of the C1 witness parse. -/
def c1MsgB : MessageElement :=
  { Name := "B", QualifiedName := "p.A.B", Documentation := "", Options := [],
    Fields := [], Enums := [], OneOfs := [], Extensions := [],
    ReservedRanges := [], ReservedNames := [], Messages := [],
    ExtendDeclarations := [] }

/-- The outer message `A` of the C1 witness parse. -/
def c1MsgA : MessageElement :=
  { Name := "A", QualifiedName := "p.A", Documentation := "", Options := [],
    Fields := [], Enums := [], OneOfs := [], Extensions := [],
    ReservedRanges := [], ReservedNames := [], Messages := [c1MsgB],
    ExtendDeclarations := [] }

/-- The C1 witness parse result. -/
def c1Pf : ProtoFile :=
  { emptyProtoFile with PackageName := "p", Messages := [c1MsgA] }

/-- Witness for C1: parsing `package p;message A{message B{}}` yields
`A` qualified as `p.A` and `B` as `p.A.B`, and the theorem instantiated at
this parse exhibits `p.A.B` as `p.A`, a dot, and a remainder. -/
theorem c1_qualified_names_witness :
    ∃ rest : String, "p.A.B" = "p.A" ++ "." ++ rest := by
  have h : runParse 30 "package p;message A{message B{}}" = .ok c1Pf := by
    rfl
  have h2 := (c1_qualified_names 30 "package p;message A{message B{}}"
    c1Pf h).2
  have hmem : c1MsgA ∈ allMsgsIn c1Pf.Messages := by
    have hf : c1Pf.Messages = [c1MsgA] := rfl
    rw [hf, allMsgsIn]
    exact List.mem_cons_self _ _
  have ht : typeQNames [c1MsgB] = ["p.A.B"] := by
    rw [typeQNames]
    simp [c1MsgB, typeQNames]
  have hq : "p.A.B" ∈ (c1MsgA.Enums.map fun e => e.QualifiedName) ++
      typeQNames c1MsgA.Messages := by
    simp [c1MsgA, ht]
  exact h2 c1MsgA hmem "p.A.B" hq

end Pbparser
